import Mathlib

/-!
Verification of the Cute-Writing-Assistant core algorithms.

JavaScript strings are modelled as `List Char` (`Str`).  Each definition below
is a shallow embedding of the corresponding TypeScript function from the
repository sources (`src/LongTextImport.tsx`, `src/MergeDuplicates.tsx` and the
AI helper module containing `getMatchedKnowledge` / `sendToAI`).
-/

namespace CuteWriting

/-- JavaScript strings are sequences of (BMP) characters. -/
abbrev Str := List Char

/-- Shorthand turning a Lean string literal into the `Str` model. -/
def str (x : String) : Str := x.data

/-- The JavaScript whitespace class: the characters matched by `\s` and removed
by `String.prototype.trim`. -/
def jsWs (c : Char) : Bool :=
  c = ' ' || c = '\t' || c = '\n' || c = '\x0b' || c = '\x0c' || c = '\r' ||
  c.toNat = 0xa0 || c.toNat = 0x1680 ||
  (0x2000 ≤ c.toNat && c.toNat ≤ 0x200a) ||
  c.toNat = 0x2028 || c.toNat = 0x2029 || c.toNat = 0x202f || c.toNat = 0x205f ||
  c.toNat = 0x3000 || c.toNat = 0xfeff

/-- `String.prototype.trim`: drop leading and trailing whitespace. -/
def jsTrim (l : Str) : Str :=
  ((l.dropWhile jsWs).reverse.dropWhile jsWs).reverse

/-- ASCII lower-casing, the effect of `toLowerCase` on the strings this
application handles (CJK characters are unaffected by `toLowerCase`). -/
def jsLowerChar (c : Char) : Char :=
  if 'A' ≤ c ∧ c ≤ 'Z' then Char.ofNat (c.toNat + 32) else c

/-- `String.prototype.toLowerCase`. -/
def jsLower (l : Str) : Str := l.map jsLowerChar

/-- `String.prototype.includes`: substring containment. -/
def jsIncludes (hay sub : Str) : Bool :=
  (List.range (hay.length + 1)).any (fun i => sub.isPrefixOf (hay.drop i))

/-- JavaScript falsy-string defaulting `x || d` for an optional string `x`
(`undefined` and the empty string are falsy). -/
def orDefault (o : Option Str) (d : Str) : Str :=
  match o with
  | some c => if c = [] then d else c
  | none => d

/-- Decimal rendering of a number, as produced by template interpolation. -/
def natToStr (n : Nat) : Str := (Nat.repr n).data

/- ### Basic lemmas about the string primitives -/

theorem dropWhile_append_of_all {p : Char → Bool} {a b : Str}
    (h : a.all p) : (a ++ b).dropWhile p = b.dropWhile p := by
  induction a with
  | nil => rfl
  | cons c t ih =>
    simp only [List.all_cons, Bool.and_eq_true] at h
    simp [List.dropWhile, h.1, ih h.2]

theorem dropWhile_cons_of_neg {p : Char → Bool} {c : Char} {t : Str}
    (h : ¬ p c = true) : (c :: t).dropWhile p = c :: t := by
  simp [List.dropWhile, h]

theorem jsTrim_ws_append {w l : Str} (h : w.all jsWs) :
    jsTrim (w ++ l) = jsTrim l := by
  simp [jsTrim, dropWhile_append_of_all h]

theorem jsTrim_append_ws {l w : Str} (h : w.all jsWs) :
    jsTrim (l ++ w) = jsTrim l := by
  unfold jsTrim
  rcases hd : l.dropWhile jsWs with _ | ⟨c, t⟩
  · have hall : l.all jsWs := by
      have := List.dropWhile_eq_nil_iff (l := l) (p := jsWs) |>.1 hd
      simpa [List.all_eq_true] using this
    have : (l ++ w).dropWhile jsWs = w.dropWhile jsWs :=
      dropWhile_append_of_all hall
    have hw : w.dropWhile jsWs = [] := by
      apply List.dropWhile_eq_nil_iff.2
      intro x hx
      exact (List.all_eq_true.1 h) x hx
    simp [this, hw]
  · have hsplit : l = l.takeWhile jsWs ++ (c :: t) := by
      conv_lhs => rw [← List.takeWhile_append_dropWhile (p := jsWs) (l := l)]
      rw [hd]
    have htk : (l.takeWhile jsWs).all jsWs := by
      rw [List.all_eq_true]
      intro x hx
      exact List.mem_takeWhile_imp hx
    have h1 : (l ++ w).dropWhile jsWs = c :: (t ++ w) := by
      conv_lhs => rw [hsplit]
      rw [List.append_assoc, dropWhile_append_of_all htk]
      have hc : ¬ jsWs c = true := by
        have := List.head?_dropWhile_not (p := jsWs) (l := l)
        rw [hd] at this
        simpa using this
      simp [dropWhile_cons_of_neg hc]
    rw [h1]
    have h2 : (c :: (t ++ w)).reverse = w.reverse ++ (t.reverse ++ [c]) := by
      simp
    rw [h2, dropWhile_append_of_all (by simpa [List.all_eq_true] using
      fun x hx => (List.all_eq_true.1 h) x (List.mem_reverse.1 hx))]
    simp

theorem jsTrim_length_le (l : Str) : (jsTrim l).length ≤ l.length := by
  unfold jsTrim
  calc ((l.dropWhile jsWs).reverse.dropWhile jsWs).reverse.length
      = ((l.dropWhile jsWs).reverse.dropWhile jsWs).length := by simp
    _ ≤ (l.dropWhile jsWs).reverse.length :=
        (List.dropWhile_suffix jsWs).sublist.length_le
    _ = (l.dropWhile jsWs).length := by simp
    _ ≤ l.length := (List.dropWhile_suffix jsWs).sublist.length_le

theorem jsTrim_nil : jsTrim [] = [] := rfl

theorem dropWhile_eq_self_of_head {p : Char → Bool} {x : Str}
    (h : ∀ c, x.head? = some c → ¬ p c = true) : x.dropWhile p = x := by
  cases x with
  | nil => rfl
  | cons c t => exact dropWhile_cons_of_neg (h c rfl)

theorem head?_of_prefix {x y : Str} (h : x <+: y) (hx : x ≠ []) :
    y.head? = x.head? := by
  obtain ⟨s, rfl⟩ := h
  cases x with
  | nil => exact absurd rfl hx
  | cons c t => rfl

theorem jsTrim_idem (l : Str) : jsTrim (jsTrim l) = jsTrim l := by
  unfold jsTrim
  set d := l.dropWhile jsWs with hd
  set m := d.reverse.dropWhile jsWs with hm
  have hmd : m <:+ d.reverse := List.dropWhile_suffix jsWs
  have hmrev : m.reverse <+: d := by
    have h' := List.reverse_prefix.2 hmd
    simpa using h'
  have h1 : m.reverse.dropWhile jsWs = m.reverse := by
    apply dropWhile_eq_self_of_head
    intro c hc
    by_cases hm0 : m.reverse = []
    · rw [hm0] at hc; cases hc
    · have : d.head? = m.reverse.head? := head?_of_prefix hmrev hm0
      have hdh := List.head?_dropWhile_not jsWs l
      rw [← hd] at hdh
      rw [this, hc] at hdh
      simpa using hdh
  have h2 : m.dropWhile jsWs = m := by
    apply dropWhile_eq_self_of_head
    intro c hc
    have := List.head?_dropWhile_not jsWs d.reverse
    rw [← hm, hc] at this
    simpa using this
  rw [h1, List.reverse_reverse, h2]

/- ### Data model (`types.ts`) -/

/-- The closed category enumeration `'人物' | '世界观' | '剧情' | '设定' | '其他'`
(person, world-setting, plot, setting, other). -/
inductive Category where
  | renwu | shijieguan | juqing | sheding | qita
deriving DecidableEq

/-- The string literal denoted by each category value. -/
def catStr : Category → Str
  | .renwu => str "人物"
  | .shijieguan => str "世界观"
  | .juqing => str "剧情"
  | .sheding => str "设定"
  | .qita => str "其他"

/-- One category-specific detail field: its object key and its display label. -/
structure Field where
  key : Str
  label : Str
deriving DecidableEq

/-- A knowledge-base entry (`KnowledgeEntry`): id, category, title, keywords and
the `details` object, modelled as an insertion-ordered association list from
field keys to string values. -/
structure KnowledgeEntry where
  id : Str
  category : Category
  title : Str
  keywords : List Str
  details : List (Str × Str)
deriving DecidableEq

/-- Modelled from the spec: the table `CATEGORY_FIELDS` of category-specific
detail fields lives in `types.ts`, which is not among the provided sources
("field-keys are category-specific and defined externally; absent key =
empty").  All general theorems below are parametric in this table; this
concrete instance (one freeform description field per category) is used only to
build concrete witnesses and counterexamples. -/
def CATEGORY_FIELDS : Category → List Field :=
  fun _ => [⟨str "描述", str "描述"⟩]

/- ### `getBaseName` (`MergeDuplicates.tsx` lines 14-17) -/

/-- Is `c` an ASCII or full-width opening parenthesis, the class `[（(]`. -/
def isOpenParen (c : Char) : Bool := c = '(' || c = '（'

/-- Is `c` an ASCII or full-width closing parenthesis, the class `[)）]`. -/
def isCloseParen (c : Char) : Bool := c = ')' || c = '）'

/-- ASCII digit, the JavaScript `\d` class. -/
def isDigit09 (c : Char) : Bool := '0' ≤ c && c ≤ '9'

/-- The tail `[)）]\s*$` of the enumerator pattern. -/
def enumTail : Str → Bool
  | [] => false
  | c2 :: r2 => isCloseParen c2 && r2.all jsWs

/-- The part `[（(]\d+[)）]\s*$` of the enumerator pattern (applied after the
leading `\s*` has been consumed). -/
def enumCore : Str → Bool
  | [] => false
  | c :: r =>
    isOpenParen c && decide (r.takeWhile isDigit09 ≠ []) &&
      enumTail (r.drop (r.takeWhile isDigit09).length)

/-- Does the regular expression `\s*[（(]\d+[)）]\s*$` match the whole of `l`?
The greedy quantifiers are deterministic here because the character classes
involved are pairwise disjoint. -/
def enumSuffixMatches (l : Str) : Bool :=
  enumCore (l.dropWhile jsWs)

/-- The start position of the match of `/\s*[（(]\d+[)）]\s*$/` in `l`: the
leftmost position from which the pattern matches to the end of the string
(`String.prototype.replace` uses the leftmost match). -/
def enumSuffixStart (l : Str) : Option Nat :=
  (List.range l.length).find? (fun i => enumSuffixMatches (l.drop i))

/-- `getBaseName` (MergeDuplicates.tsx line 14): strip one trailing enumerator
suffix `(<digits>)` / `（<digits>）` with surrounding whitespace, then trim:
`title.replace(/\s*[（(]\d+[)）]\s*$/, '').trim()`. -/
def getBaseName (title : Str) : Str :=
  match enumSuffixStart title with
  | some i => jsTrim (title.take i)
  | none => jsTrim title

/- ### Lemmas about `getBaseName` -/

theorem takeWhile_append_of_all {p : Char → Bool} {a b : Str}
    (h : a.all p) : (a ++ b).takeWhile p = a ++ b.takeWhile p := by
  induction a with
  | nil => rfl
  | cons c t ih =>
    simp only [List.all_cons, Bool.and_eq_true] at h
    simp [List.takeWhile, h.1, ih h.2]

theorem takeWhile_eq_nil_of_head {p : Char → Bool} {x : Str}
    (h : ∀ c, x.head? = some c → p c = false) : x.takeWhile p = [] := by
  cases x with
  | nil => rfl
  | cons c t => simp [List.takeWhile, h c rfl]

/-- Splitting an equality `a₁ ++ b₁ = a₂ ++ b₂` when both `a`-parts consist of
`p`-characters and both `b`-parts start with a non-`p` character. -/
theorem append_inj_of_all_not {p : Char → Bool} {a₁ b₁ a₂ b₂ : Str}
    (h : a₁ ++ b₁ = a₂ ++ b₂) (ha₁ : a₁.all p) (ha₂ : a₂.all p)
    (hb₁ : ∀ c, b₁.head? = some c → p c = false)
    (hb₂ : ∀ c, b₂.head? = some c → p c = false) :
    a₁ = a₂ ∧ b₁ = b₂ := by
  have t₁ : (a₁ ++ b₁).takeWhile p = a₁ := by
    rw [takeWhile_append_of_all ha₁, takeWhile_eq_nil_of_head hb₁, List.append_nil]
  have t₂ : (a₂ ++ b₂).takeWhile p = a₂ := by
    rw [takeWhile_append_of_all ha₂, takeWhile_eq_nil_of_head hb₂, List.append_nil]
  have d₁ : (a₁ ++ b₁).dropWhile p = b₁ := by
    rw [dropWhile_append_of_all ha₁]
    exact dropWhile_eq_self_of_head (fun c hc => by simp [hb₁ c hc])
  have d₂ : (a₂ ++ b₂).dropWhile p = b₂ := by
    rw [dropWhile_append_of_all ha₂]
    exact dropWhile_eq_self_of_head (fun c hc => by simp [hb₂ c hc])
  constructor
  · rw [← t₁, ← t₂, h]
  · rw [← d₁, ← d₂, h]

theorem isOpenParen_not_ws {c : Char} (h : isOpenParen c = true) :
    jsWs c = false := by
  simp only [isOpenParen, Bool.or_eq_true, decide_eq_true_eq] at h
  rcases h with h' | h' <;> subst h' <;> decide

theorem isCloseParen_not_ws {c : Char} (h : isCloseParen c = true) :
    jsWs c = false := by
  simp only [isCloseParen, Bool.or_eq_true, decide_eq_true_eq] at h
  rcases h with h' | h' <;> subst h' <;> decide

theorem isOpenParen_not_digit {c : Char} (h : isOpenParen c = true) :
    isDigit09 c = false := by
  simp only [isOpenParen, Bool.or_eq_true, decide_eq_true_eq] at h
  rcases h with h' | h' <;> subst h' <;> decide

theorem isCloseParen_not_digit {c : Char} (h : isCloseParen c = true) :
    isDigit09 c = false := by
  simp only [isCloseParen, Bool.or_eq_true, decide_eq_true_eq] at h
  rcases h with h' | h' <;> subst h' <;> decide

theorem drop_length_takeWhile (p : Char → Bool) (r : Str) :
    r.drop (r.takeWhile p).length = r.dropWhile p := by
  induction r with
  | nil => rfl
  | cons c t ih =>
    by_cases hc : p c
    · simp [List.takeWhile, List.dropWhile, hc, ih]
    · simp [List.takeWhile, List.dropWhile, hc]

/-- Inversion: a string matched by `\s*[（(]\d+[)）]\s*$` decomposes into
whitespace, an opening parenthesis, digits, a closing parenthesis and
whitespace. -/
theorem enumSuffixMatches_inv {l : Str} (h : enumSuffixMatches l = true) :
    ∃ w c ds c2 w2, l = w ++ c :: (ds ++ c2 :: w2) ∧ w.all jsWs ∧
      isOpenParen c = true ∧ ds ≠ [] ∧ ds.all isDigit09 ∧
      isCloseParen c2 = true ∧ w2.all jsWs := by
  unfold enumSuffixMatches at h
  rcases hd : l.dropWhile jsWs with _ | ⟨c, r⟩
  · rw [hd] at h; cases h
  · rw [hd] at h
    unfold enumCore at h
    simp only [Bool.and_eq_true, decide_eq_true_eq] at h
    obtain ⟨⟨hop, hds⟩, hrest⟩ := h
    rcases hdrop : r.drop (r.takeWhile isDigit09).length with _ | ⟨c2, r2⟩
    · rw [hdrop] at hrest; cases hrest
    · rw [hdrop] at hrest
      unfold enumTail at hrest
      simp only [Bool.and_eq_true] at hrest
      refine ⟨l.takeWhile jsWs, c, r.takeWhile isDigit09, c2, r2, ?_, ?_, hop, hds, ?_, hrest.1, hrest.2⟩
      · have hl : l = l.takeWhile jsWs ++ (c :: r) := by
          conv_lhs => rw [← List.takeWhile_append_dropWhile (p := jsWs) (l := l)]
          rw [hd]
        have hr : r = r.takeWhile isDigit09 ++ (c2 :: r2) := by
          conv_lhs => rw [← List.takeWhile_append_dropWhile (p := isDigit09) (l := r)]
          rw [← drop_length_takeWhile isDigit09 r, hdrop]
        conv_lhs => rw [hl]
        conv_lhs => rw [hr]
      · rw [List.all_eq_true]
        intro x hx
        exact List.mem_takeWhile_imp hx
      · rw [List.all_eq_true]
        intro x hx
        exact List.mem_takeWhile_imp hx

/-- The pattern does match a well-formed enumerator suffix. -/
theorem enumSuffixMatches_suffix {op : Char} {ds : Str} {cp : Char} {w2 : Str}
    (hop : isOpenParen op = true) (hds : ds ≠ []) (hdig : ds.all isDigit09)
    (hcp : isCloseParen cp = true) (hw2 : w2.all jsWs) :
    enumSuffixMatches (op :: (ds ++ cp :: w2)) = true := by
  unfold enumSuffixMatches
  rw [dropWhile_cons_of_neg (by simp [isOpenParen_not_ws hop])]
  simp only [enumCore]
  have htw : (ds ++ cp :: w2).takeWhile isDigit09 = ds := by
    rw [takeWhile_append_of_all hdig,
      takeWhile_eq_nil_of_head (fun c hc => by
        simp only [List.head?_cons, Option.some.injEq] at hc
        rw [← hc]
        exact isCloseParen_not_digit hcp), List.append_nil]
  rw [htw]
  have hdr : (ds ++ cp :: w2).drop ds.length = cp :: w2 := List.drop_left ds (cp :: w2)
  rw [hdr]
  unfold enumTail
  simp [hop, hds, hcp, hw2]

/-- Any position from which the pattern matches to the end of
`T ++ w1 ++ (ds) ++ w2` cuts the string into `T` plus whitespace: the prefix
before the leftmost match trims to `jsTrim T`. -/
theorem enumSuffix_match_take {T w1 : Str} {op : Char} {ds : Str} {cp : Char}
    {w2 : Str} (hw1 : w1.all jsWs) (hdig : ds.all isDigit09)
    (hop : isOpenParen op = true) (hcp : isCloseParen cp = true)
    (hw2 : w2.all jsWs) {i : Nat}
    (h : enumSuffixMatches ((T ++ w1 ++ op :: (ds ++ cp :: w2)).drop i) = true) :
    jsTrim ((T ++ w1 ++ op :: (ds ++ cp :: w2)).take i) = jsTrim T := by
  set S := T ++ w1 ++ op :: (ds ++ cp :: w2) with hS
  obtain ⟨w', c', ds', c2', w2', hdec, hw', hop', hds', hdig', hcp', hw2'⟩ :=
    enumSuffixMatches_inv h
  have hsplit : S.take i ++ (w' ++ c' :: (ds' ++ c2' :: w2')) = S := by
    rw [← hdec, List.take_append_drop]
  -- compare the two decompositions of `S.reverse`
  have hrev : w2.reverse ++ cp :: (ds.reverse ++ op :: (w1.reverse ++ T.reverse)) =
      w2'.reverse ++ c2' :: (ds'.reverse ++ c' :: (w'.reverse ++ (S.take i).reverse)) := by
    have h1 : S.reverse = w2.reverse ++ cp :: (ds.reverse ++ op :: (w1.reverse ++ T.reverse)) := by
      rw [hS]
      simp [List.reverse_append]
    have h2 : S.reverse = w2'.reverse ++ c2' :: (ds'.reverse ++ c' :: (w'.reverse ++ (S.take i).reverse)) := by
      conv_lhs => rw [← hsplit]
      simp [List.reverse_append]
    rw [← h1, h2]
  have hall_rev : ∀ {x : Str}, x.all jsWs → x.reverse.all jsWs := by
    intro x hx
    rw [List.all_eq_true] at hx ⊢
    intro c hc
    exact hx c (List.mem_reverse.1 hc)
  have hdig_rev : ∀ {x : Str}, x.all isDigit09 → x.reverse.all isDigit09 := by
    intro x hx
    rw [List.all_eq_true] at hx ⊢
    intro c hc
    exact hx c (List.mem_reverse.1 hc)
  -- phase 1: strip the trailing whitespace, match the closing parentheses
  have p1 := append_inj_of_all_not (p := jsWs) hrev (hall_rev hw2) (hall_rev hw2')
    (fun c hc => by
      simp only [List.head?_cons, Option.some.injEq] at hc
      rw [← hc]; exact isCloseParen_not_ws hcp)
    (fun c hc => by
      simp only [List.head?_cons, Option.some.injEq] at hc
      rw [← hc]; exact isCloseParen_not_ws hcp')
  have h3 := p1.2
  injection h3 with hcpeq h3tl
  -- phase 2: strip the digits, match the opening parentheses
  have p2 := append_inj_of_all_not (p := isDigit09) h3tl (hdig_rev hdig)
    (hdig_rev hdig')
    (fun c hc => by
      simp only [List.head?_cons, Option.some.injEq] at hc
      rw [← hc]; exact isOpenParen_not_digit hop)
    (fun c hc => by
      simp only [List.head?_cons, Option.some.injEq] at hc
      rw [← hc]; exact isOpenParen_not_digit hop')
  have h4 := p2.2
  injection h4 with hopeq h4tl
  -- hence `take i ++ w' = T ++ w1`, and both `w'` and `w1` trim away
  have h5 : T ++ w1 = S.take i ++ w' := by
    have := congrArg List.reverse h4tl
    simpa using this
  calc jsTrim (S.take i) = jsTrim (S.take i ++ w') := (jsTrim_append_ws hw').symm
    _ = jsTrim (T ++ w1) := by rw [← h5]
    _ = jsTrim T := jsTrim_append_ws hw1

/-- `C4` amended, part 1: appending a well-formed enumerator suffix
`\s*[（(]\d+[)）]\s*` to any title `T` normalizes to `jsTrim T` (the suffix and
any whitespace around it are removed, and at most trailing whitespace of `T`
beyond that). -/
theorem getBaseName_append_enumSuffix {T w1 : Str} {op : Char} {ds : Str}
    {cp : Char} {w2 : Str} (hw1 : w1.all jsWs) (hop : isOpenParen op = true)
    (hds : ds ≠ []) (hdig : ds.all isDigit09) (hcp : isCloseParen cp = true)
    (hw2 : w2.all jsWs) :
    getBaseName (T ++ w1 ++ op :: (ds ++ cp :: w2)) = jsTrim T := by
  set S := T ++ w1 ++ op :: (ds ++ cp :: w2) with hS
  have hi0 : enumSuffixMatches (S.drop (T ++ w1).length) = true := by
    have hdl : S.drop (T ++ w1).length = op :: (ds ++ cp :: w2) := by
      rw [hS]
      exact List.drop_left (T ++ w1) _
    rw [hdl]
    exact enumSuffixMatches_suffix hop hds hdig hcp hw2
  have hlen : (T ++ w1).length < S.length := by
    rw [hS]
    simp [List.length_append]
  have hfind : ∃ j, enumSuffixStart S = some j := by
    unfold enumSuffixStart
    rcases hf : (List.range S.length).find?
        (fun i => enumSuffixMatches (S.drop i)) with _ | j
    · exfalso
      have hmem := List.find?_eq_none.1 hf ((T ++ w1).length) (List.mem_range.2 hlen)
      exact hmem (by simpa using hi0)
    · exact ⟨j, rfl⟩
  obtain ⟨j, hj⟩ := hfind
  have hjm : enumSuffixMatches (S.drop j) = true := by
    have := List.find?_some (p := fun i => enumSuffixMatches (S.drop i)) hj
    simpa using this
  unfold getBaseName
  rw [hj]
  exact enumSuffix_match_take hw1 hdig hop hcp hw2 hjm

/-- `getBaseName` always returns a trimmed string. -/
theorem jsTrim_getBaseName (t : Str) : jsTrim (getBaseName t) = getBaseName t := by
  unfold getBaseName
  cases enumSuffixStart t with
  | none => exact jsTrim_idem t
  | some i => exact jsTrim_idem _

theorem getBaseName_of_none {s : Str} (h : enumSuffixStart s = none) :
    getBaseName s = jsTrim s := by
  unfold getBaseName
  rw [h]

/-- C4 (amended): for every title `T` and well-formed enumerator suffix
(whitespace, an ASCII or full-width parenthesised digit group, whitespace),
`getBaseName (T ++ suffix) = jsTrim T`; consequently
`getBaseName (T ++ suffix) = getBaseName T` whenever `T` itself carries no
trailing enumerator suffix.  `getBaseName` is idempotent on every title whose
normalized form carries no further trailing enumerator suffix (full
idempotence fails, see the counterexample). -/
theorem claim_C4_amended :
    (∀ (T w1 : Str) (op : Char) (ds : Str) (cp : Char) (w2 : Str),
      w1.all jsWs = true → isOpenParen op = true → ds ≠ [] →
      ds.all isDigit09 = true → isCloseParen cp = true → w2.all jsWs = true →
      getBaseName (T ++ w1 ++ op :: (ds ++ cp :: w2)) = jsTrim T) ∧
    (∀ T : Str, enumSuffixStart T = none →
      getBaseName T = jsTrim T) ∧
    (∀ T : Str, enumSuffixStart (getBaseName T) = none →
      getBaseName (getBaseName T) = getBaseName T) := by
  refine ⟨?_, ?_, ?_⟩
  · intro T w1 op ds cp w2 h1 h2 h3 h4 h5 h6
    exact getBaseName_append_enumSuffix h1 h2 h3 h4 h5 h6
  · intro T h
    exact getBaseName_of_none h
  · intro T h
    rw [getBaseName_of_none h, jsTrim_getBaseName]

/-- C4 witness: the amended theorem applied to the concrete title `主角`
with suffix ` (12)`, and idempotence at the concrete title `主角 (12)`. -/
theorem claim_C4_amended_witness :
    getBaseName (str "主角" ++ str " " ++ '(' :: (str "12" ++ ')' :: [])) =
      jsTrim (str "主角") ∧
    getBaseName (getBaseName (str "主角 (12)")) = getBaseName (str "主角 (12)") :=
  ⟨claim_C4_amended.1 (str "主角") (str " ") '(' (str "12") ')' []
      (by decide) (by decide) (by decide) (by decide) (by decide) (by decide),
   claim_C4_amended.2.2 (str "主角 (12)") (by decide)⟩

/-- C4 counterexample: the claim as stated is false.  For `T = "abc (2)"` and
the suffix `" (3)"`, `getBaseName (T ++ suffix) = "abc (2)" ≠ "abc" =
getBaseName T` — the regex strips only the last enumerator suffix — and on the
same input `getBaseName` is not idempotent. -/
theorem claim_C4_counterexample :
    getBaseName (str "abc (2)" ++ str " (3)") = str "abc (2)" ∧
    getBaseName (str "abc (2)") = str "abc" ∧
    getBaseName (str "abc (2)" ++ str " (3)") ≠ getBaseName (str "abc (2)") ∧
    getBaseName (getBaseName (str "abc (2) (3)")) ≠ getBaseName (str "abc (2) (3)") := by
  decide

/- ### `findDuplicates` (`MergeDuplicates.tsx` lines 20-47) -/

/-- The grouping key `` `${entry.category}::${baseName}` ``. -/
def entryKey (e : KnowledgeEntry) : Str :=
  catStr e.category ++ str "::" ++ getBaseName e.title

/-- One step of filling the `Map` in `findDuplicates`: a JavaScript `Map`
preserves key insertion order, and entries are pushed onto their key's array in
traversal order. -/
def insertGrouped (m : List (Str × List KnowledgeEntry)) (e : KnowledgeEntry) :
    List (Str × List KnowledgeEntry) :=
  if m.any (fun kv => decide (kv.1 = entryKey e)) then
    m.map (fun kv => if kv.1 = entryKey e then (kv.1, kv.2 ++ [e]) else kv)
  else m ++ [(entryKey e, [e])]

/-- The filled `groups` map of `findDuplicates`. -/
def groupsOf (knowledge : List KnowledgeEntry) : List (Str × List KnowledgeEntry) :=
  knowledge.foldl insertGrouped []

/-- A group of entries sharing a normalized title (`DuplicateGroup`). -/
structure DuplicateGroup where
  baseName : Str
  category : Category
  entries : List KnowledgeEntry
deriving DecidableEq

/-- `key.split('::')` — split on each non-overlapping occurrence of `::`. -/
def splitOnColonsAux : Nat → Str → Str → List Str
  | 0, cur, l => [cur.reverse ++ l]
  | _ + 1, cur, [] => [cur.reverse]
  | fuel + 1, cur, ':' :: ':' :: rest => cur.reverse :: splitOnColonsAux fuel [] rest
  | fuel + 1, cur, c :: rest => splitOnColonsAux fuel (c :: cur) rest

/-- `key.split('::')`. -/
def splitOnColons (l : Str) : List Str := splitOnColonsAux l.length [] l

/-- The TypeScript cast `category as KnowledgeCategory` applied to the first
segment of the key (always one of the five category strings). -/
def strToCategory (s : Str) : Category :=
  if s = str "人物" then .renwu
  else if s = str "世界观" then .shijieguan
  else if s = str "剧情" then .juqing
  else if s = str "设定" then .sheding
  else .qita

/-- The `duplicates` array of `findDuplicates` before sorting: the groups with
more than one member, in first-encounter order, rebuilt from their keys via
`key.split('::')` destructuring. -/
def preDuplicates (knowledge : List KnowledgeEntry) : List DuplicateGroup :=
  (groupsOf knowledge).filterMap (fun kv =>
    if 1 < kv.2.length then
      some ⟨((splitOnColons kv.1).drop 1).headD [],
        strToCategory ((splitOnColons kv.1).headD []), kv.2⟩
    else none)

/-- Stable insertion step of the descending-size sort
`duplicates.sort((a, b) => b.entries.length - a.entries.length)`
(ECMAScript `Array.prototype.sort` is stable). -/
def insertGroupSorted (g : DuplicateGroup) : List DuplicateGroup → List DuplicateGroup
  | [] => [g]
  | h :: t =>
    if g.entries.length < h.entries.length then h :: insertGroupSorted g t
    else g :: h :: t

/-- Stable sort of the duplicate groups by descending member count. -/
def sortGroups (l : List DuplicateGroup) : List DuplicateGroup :=
  l.foldr insertGroupSorted []

/-- `findDuplicates`: group by `(category, normalized title)`, keep groups with
at least two members, sort descending by member count. -/
def findDuplicates (knowledge : List KnowledgeEntry) : List DuplicateGroup :=
  sortGroups (preDuplicates knowledge)

/- ### Lemmas about `findDuplicates` -/

/-- The first character of each category name; the five are pairwise distinct. -/
def catHead : Category → Char
  | .renwu => '人'
  | .shijieguan => '世'
  | .juqing => '剧'
  | .sheding => '设'
  | .qita => '其'

theorem key_head (c : Category) (b : Str) :
    (catStr c ++ str "::" ++ b).head? = some (catHead c) := by
  cases c <;> rfl

/-- Two equal grouping keys have the same category and the same base name. -/
theorem entryKey_inj {c c' : Category} {b b' : Str}
    (h : catStr c ++ str "::" ++ b = catStr c' ++ str "::" ++ b') :
    c = c' ∧ b = b' := by
  have hh : catHead c = catHead c' := by
    have h0 := congrArg List.head? h
    rw [key_head, key_head] at h0
    exact Option.some.inj h0
  have hc : c = c' := by
    revert hh
    cases c <;> cases c' <;> decide
  subst hc
  refine ⟨rfl, ?_⟩
  exact List.append_cancel_left h

/-- Invariant of the grouping fold: arrays are non-empty, every stored entry
comes from the input list `u` and is stored under its own key. -/
def GroupInv (u : List KnowledgeEntry) (m : List (Str × List KnowledgeEntry)) : Prop :=
  ∀ kv ∈ m, kv.2 ≠ [] ∧ ∀ e ∈ kv.2, e ∈ u ∧ entryKey e = kv.1

theorem insertGrouped_inv {u : List KnowledgeEntry}
    {m : List (Str × List KnowledgeEntry)} (hm : GroupInv u m)
    {e : KnowledgeEntry} (he : e ∈ u) : GroupInv u (insertGrouped m e) := by
  unfold insertGrouped
  by_cases hk : m.any (fun kv => decide (kv.1 = entryKey e)) = true
  · rw [if_pos hk]
    intro kv hkv
    obtain ⟨kv₀, hkv₀, hmap⟩ := List.mem_map.1 hkv
    by_cases heq : kv₀.1 = entryKey e
    · rw [if_pos heq] at hmap
      obtain ⟨hne, hold⟩ := hm kv₀ hkv₀
      rw [← hmap]
      refine ⟨by simp, ?_⟩
      intro x hx
      rcases List.mem_append.1 hx with hx | hx
      · exact hold x hx
      · rw [List.mem_singleton] at hx
        subst hx
        exact ⟨he, heq.symm⟩
    · rw [if_neg heq] at hmap
      rw [← hmap]
      exact hm kv₀ hkv₀
  · rw [if_neg hk]
    intro kv hkv
    rcases List.mem_append.1 hkv with hkv | hkv
    · exact hm kv hkv
    · rw [List.mem_singleton] at hkv
      subst hkv
      refine ⟨by simp, ?_⟩
      intro x hx
      rw [List.mem_singleton] at hx
      subst hx
      exact ⟨he, rfl⟩

theorem foldl_insertGrouped_inv {u : List KnowledgeEntry} :
    ∀ (l : List KnowledgeEntry) (acc : List (Str × List KnowledgeEntry)),
      (∀ x ∈ l, x ∈ u) → GroupInv u acc →
      GroupInv u (l.foldl insertGrouped acc)
  | [], _, _, hacc => hacc
  | x :: t, acc, hl, hacc => by
    simp only [List.foldl_cons]
    exact foldl_insertGrouped_inv t _
      (fun y hy => hl y (List.mem_cons_of_mem x hy))
      (insertGrouped_inv hacc (hl x (List.mem_cons_self x t)))

theorem groupsOf_inv (knowledge : List KnowledgeEntry) :
    GroupInv knowledge (groupsOf knowledge) :=
  foldl_insertGrouped_inv knowledge [] (fun _ hx => hx) (fun kv h => absurd h (by simp))

/-- Every pre-sort duplicate group has at least two members, all drawn from the
input, all sharing one grouping key. -/
theorem preDuplicates_spec {knowledge : List KnowledgeEntry} {g : DuplicateGroup}
    (hg : g ∈ preDuplicates knowledge) :
    2 ≤ g.entries.length ∧ (∀ e ∈ g.entries, e ∈ knowledge) ∧
    ∃ k, ∀ e ∈ g.entries, entryKey e = k := by
  unfold preDuplicates at hg
  obtain ⟨kv, hkv, hsome⟩ := List.mem_filterMap.1 hg
  by_cases hlen : 1 < kv.2.length
  · rw [if_pos hlen] at hsome
    have hgeq := Option.some.inj hsome
    obtain ⟨-, hinv⟩ := groupsOf_inv knowledge kv hkv
    have hent : g.entries = kv.2 := by rw [← hgeq]
    refine ⟨by rw [hent]; omega, ?_, ⟨kv.1, ?_⟩⟩
    · intro e he
      rw [hent] at he
      exact (hinv e he).1
    · intro e he
      rw [hent] at he
      exact (hinv e he).2
  · rw [if_neg hlen] at hsome
    cases hsome

theorem mem_insertGroupSorted {g a : DuplicateGroup} :
    ∀ {l : List DuplicateGroup}, a ∈ insertGroupSorted g l ↔ a = g ∨ a ∈ l := by
  intro l
  induction l with
  | nil => simp [insertGroupSorted]
  | cons h t ih =>
    unfold insertGroupSorted
    by_cases hc : g.entries.length < h.entries.length
    · rw [if_pos hc]
      simp only [List.mem_cons, ih]
      tauto
    · rw [if_neg hc]
      simp only [List.mem_cons]

theorem filter_insertGroupSorted (n : Nat) (g : DuplicateGroup) :
    ∀ (l : List DuplicateGroup),
      (insertGroupSorted g l).filter (fun x => decide (x.entries.length = n)) =
      ((g :: l).filter (fun x => decide (x.entries.length = n))) := by
  intro l
  induction l with
  | nil => rfl
  | cons h t ih =>
    unfold insertGroupSorted
    by_cases hc : g.entries.length < h.entries.length
    · rw [if_pos hc]
      by_cases hg : g.entries.length = n
      · have hh : ¬ h.entries.length = n := by omega
        simp [List.filter_cons, ih, hg, hh]
      · by_cases hh : h.entries.length = n
        · simp [List.filter_cons, ih, hg, hh]
        · simp [List.filter_cons, ih, hg, hh]
    · rw [if_neg hc]

theorem pairwise_insertGroupSorted {g : DuplicateGroup} {l : List DuplicateGroup}
    (h : l.Pairwise (fun a b => b.entries.length ≤ a.entries.length)) :
    (insertGroupSorted g l).Pairwise
      (fun a b => b.entries.length ≤ a.entries.length) := by
  induction l with
  | nil => simp [insertGroupSorted]
  | cons hd t ih =>
    rw [List.pairwise_cons] at h
    unfold insertGroupSorted
    by_cases hc : g.entries.length < hd.entries.length
    · rw [if_pos hc, List.pairwise_cons]
      refine ⟨?_, ih h.2⟩
      intro b hb
      rcases mem_insertGroupSorted.1 hb with rfl | hb
      · omega
      · exact h.1 b hb
    · rw [if_neg hc, List.pairwise_cons]
      refine ⟨?_, List.pairwise_cons.2 h⟩
      intro b hb
      rcases List.mem_cons.1 hb with rfl | hb
      · omega
      · have := h.1 b hb
        omega

theorem mem_sortGroups {a : DuplicateGroup} :
    ∀ {l : List DuplicateGroup}, a ∈ sortGroups l ↔ a ∈ l := by
  intro l
  induction l with
  | nil => simp [sortGroups]
  | cons h t ih =>
    unfold sortGroups
    rw [List.foldr_cons, mem_insertGroupSorted]
    unfold sortGroups at ih
    rw [ih, List.mem_cons]

theorem filter_sortGroups (n : Nat) :
    ∀ (l : List DuplicateGroup),
      (sortGroups l).filter (fun x => decide (x.entries.length = n)) =
      l.filter (fun x => decide (x.entries.length = n)) := by
  intro l
  induction l with
  | nil => rfl
  | cons h t ih =>
    unfold sortGroups
    rw [List.foldr_cons]
    unfold sortGroups at ih
    rw [filter_insertGroupSorted, List.filter_cons, List.filter_cons, ih]

theorem pairwise_sortGroups :
    ∀ (l : List DuplicateGroup),
      (sortGroups l).Pairwise (fun a b => b.entries.length ≤ a.entries.length) := by
  intro l
  induction l with
  | nil => exact List.Pairwise.nil
  | cons h t ih =>
    unfold sortGroups
    rw [List.foldr_cons]
    exact pairwise_insertGroupSorted ih

/-- C5: `findDuplicates` only returns groups of at least two members; every
member of every group is one of the input entries; all members of one group
share an identical category and an identical normalized base title; groups are
ordered by non-increasing member count; and ties keep first-encountered group
order (the subsequence of groups with any fixed member count is exactly the
pre-sort, first-encounter-ordered subsequence with that count — ECMAScript
sorting is stable). -/
theorem claim_C5 (knowledge : List KnowledgeEntry) :
    (∀ g ∈ findDuplicates knowledge, 2 ≤ g.entries.length) ∧
    (∀ g ∈ findDuplicates knowledge, ∀ e ∈ g.entries, e ∈ knowledge) ∧
    (∀ g ∈ findDuplicates knowledge, ∀ e ∈ g.entries, ∀ e₂ ∈ g.entries,
      e.category = e₂.category ∧ getBaseName e.title = getBaseName e₂.title) ∧
    (findDuplicates knowledge).Pairwise
      (fun a b => b.entries.length ≤ a.entries.length) ∧
    (∀ n : Nat,
      (findDuplicates knowledge).filter (fun g => decide (g.entries.length = n)) =
      (preDuplicates knowledge).filter (fun g => decide (g.entries.length = n))) := by
  refine ⟨?_, ?_, ?_, ?_, ?_⟩
  · intro g hg
    exact (preDuplicates_spec (mem_sortGroups.1 hg)).1
  · intro g hg e he
    exact (preDuplicates_spec (mem_sortGroups.1 hg)).2.1 e he
  · intro g hg e he e₂ he₂
    obtain ⟨-, -, k, hk⟩ := preDuplicates_spec (mem_sortGroups.1 hg)
    have h1 := hk e he
    have h2 := hk e₂ he₂
    have := @entryKey_inj e.category e₂.category (getBaseName e.title)
      (getBaseName e₂.title) (by rw [← entryKey, ← entryKey, h1, h2])
    exact this
  · exact pairwise_sortGroups (preDuplicates knowledge)
  · intro n
    exact filter_sortGroups n (preDuplicates knowledge)

/-- Concrete store used by the C5 witness. -/
def w5e1 : KnowledgeEntry := ⟨str "1", .renwu, str "甲 (2)", [], []⟩

/-- Concrete store used by the C5 witness. -/
def w5e2 : KnowledgeEntry := ⟨str "2", .renwu, str "甲(3)", [], []⟩

/-- Concrete store used by the C5 witness. -/
def w5e3 : KnowledgeEntry := ⟨str "3", .qita, str "乙", [], []⟩

/-- Concrete duplicate group used by the C5 witness. -/
def w5g : DuplicateGroup := ⟨str "甲", .renwu, [w5e1, w5e2]⟩

/-- C5 witness: the theorem applied to a concrete three-entry store in which
`甲 (2)` and `甲(3)` normalize to the same base title. -/
theorem claim_C5_witness :
    2 ≤ w5g.entries.length ∧ w5e1 ∈ [w5e1, w5e2, w5e3] ∧
    (w5e1.category = w5e2.category ∧
      getBaseName w5e1.title = getBaseName w5e2.title) := by
  have h := claim_C5 [w5e1, w5e2, w5e3]
  have hmem : w5g ∈ findDuplicates [w5e1, w5e2, w5e3] := by decide
  have h1 : w5e1 ∈ w5g.entries := by decide
  have h2 : w5e2 ∈ w5g.entries := by decide
  exact ⟨h.1 w5g hmem, h.2.1 w5g hmem w5e1 h1, h.2.2.1 w5g hmem w5e1 h1 w5e2 h2⟩

/- ### `splitText` (`LongTextImport.tsx` lines 14-57) -/

/-- A segment of the imported document (`{ content, chapter? }`). -/
structure TextChunk where
  content : Str
  chapter : Option Str
deriving DecidableEq

/-- Characters matched by the class `[一二三四五六七八九十百千\d]`. -/
def cjkNumeral (c : Char) : Bool :=
  c = '一' || c = '二' || c = '三' || c = '四' || c = '五' || c = '六' ||
  c = '七' || c = '八' || c = '九' || c = '十' || c = '百' || c = '千' ||
  isDigit09 c

/-- Try to match the chapter-heading pattern
`第[一二三四五六七八九十百千\d]+章[^\n]*|Chapter\s*\d+[^\n]*` (flags `gi`) at
the start of `l`; on success return the matched text and the rest of the
string.  The greedy quantifiers are deterministic because each adjacent pair of
character classes is disjoint. -/
def matchChapterAt (l : Str) : Option (Str × Str) :=
  match l with
  | '第' :: r =>
    let ds := r.takeWhile cjkNumeral
    if ds = [] then none
    else
      match r.drop ds.length with
      | '章' :: r2 =>
        some ('第' :: ds ++ '章' :: r2.takeWhile (fun c => c != '\n'),
          r2.dropWhile (fun c => c != '\n'))
      | _ => none
  | _ =>
    if (l.take 7).map jsLowerChar = str "chapter" then
      let r := l.drop 7
      let w := r.takeWhile jsWs
      let r1 := r.drop w.length
      let ds := r1.takeWhile isDigit09
      if ds = [] then none
      else
        some (l.take 7 ++ w ++ ds ++ (r1.drop ds.length).takeWhile (fun c => c != '\n'),
          (r1.drop ds.length).dropWhile (fun c => c != '\n'))
    else none

/-- Scanner realizing `text.split(chapterPattern)` where the pattern carries a
single capture group: the pieces between matches and the matched headings
alternate in the output, including empty leading/trailing pieces. -/
def chapterSplitAux : Nat → Str → Str → List Str
  | 0, pre, l => [pre.reverse ++ l]
  | _ + 1, pre, [] => [pre.reverse]
  | fuel + 1, pre, c :: rest =>
    match matchChapterAt (c :: rest) with
    | some (m, r) => pre.reverse :: m :: chapterSplitAux fuel [] r
    | none => chapterSplitAux fuel (c :: pre) rest

/-- `text.split(chapterPattern)` (line 19). -/
def chapterSplit (text : Str) : List Str := chapterSplitAux text.length [] text

/-- `chapterPattern.test(part)` (line 28): does the heading pattern occur
anywhere in `part`?  (The code resets the stateful `lastIndex` after each
successful test, so each test is a fresh search.) -/
def testChapter : Str → Bool
  | [] => false
  | c :: rest => (matchChapterAt (c :: rest)).isSome || testChapter rest

/-- `part.split(/\n\n+/)` (line 40). -/
def splitParasAux : Nat → Str → Str → List Str
  | 0, cur, l => [cur.reverse ++ l]
  | _ + 1, cur, [] => [cur.reverse]
  | fuel + 1, cur, '\n' :: '\n' :: rest =>
    cur.reverse :: splitParasAux fuel [] (rest.dropWhile (fun c => c == '\n'))
  | fuel + 1, cur, c :: rest => splitParasAux fuel (c :: cur) rest

/-- `part.split(/\n\n+/)` (line 40). -/
def splitParas (l : Str) : List Str := splitParasAux l.length [] l

/-- One step of the greedy paragraph accumulation (lines 42-49): flush the
trimmed buffer as a chunk when appending the next paragraph would exceed
`maxLen` and the buffer is non-empty; otherwise append the paragraph after a
`\n\n` separator (`current += '\n\n' + p`). -/
def paraStep (maxLen : Nat) (st : List Str × Str) (p : Str) : List Str × Str :=
  if maxLen < (st.2 ++ p).length ∧ st.2 ≠ [] then (st.1 ++ [jsTrim st.2], p)
  else (st.1, st.2 ++ '\n' :: '\n' :: p)

/-- Lines 40-52: split an over-long segment on blank lines, re-accumulate
greedily, and keep the final buffer only if its trimmed length exceeds 50. -/
def splitLongPart (maxLen : Nat) (part : Str) : List Str :=
  ((splitParas part).foldl (paraStep maxLen) ([], [])).1 ++
    (if 50 < (jsTrim ((splitParas part).foldl (paraStep maxLen) ([], [])).2).length
     then [jsTrim ((splitParas part).foldl (paraStep maxLen) ([], [])).2]
     else [])

/-- Lines 36-53: a short-enough segment is one chunk; an over-long one is split
by paragraphs. -/
def partChunks (maxLen : Nat) (part : Str) : List Str :=
  if part.length ≤ maxLen then [part] else splitLongPart maxLen part

/-- Lines 23-54: walk the split pieces in order, tracking the current chapter
heading, skipping empty pieces and heading pieces, dropping segments whose
trimmed length is below 50. -/
def splitTextAux (maxLen : Nat) : Option Str → List Str → List TextChunk
  | _, [] => []
  | curCh, rawPart :: rest =>
    if jsTrim rawPart = [] then splitTextAux maxLen curCh rest
    else if testChapter (jsTrim rawPart) then
      splitTextAux maxLen (some (jsTrim rawPart)) rest
    else if (jsTrim rawPart).length < 50 then splitTextAux maxLen curCh rest
    else (partChunks maxLen (jsTrim rawPart)).map (fun s => ⟨s, curCh⟩) ++
      splitTextAux maxLen curCh rest

/-- `splitText` (LongTextImport.tsx line 14); `maxLen` defaults to 3000. -/
def splitText (text : Str) (maxLen : Nat := 3000) : List TextChunk :=
  splitTextAux maxLen none (chapterSplit text)

/- ### Lemmas about `splitText` -/

/-- Chunk shape: either within two separator characters of the budget, or the
trim of a single over-long source paragraph from `ps`. -/
def ChunkOk (maxLen : Nat) (ps : List Str) (s : Str) : Prop :=
  s.length ≤ maxLen + 2 ∨ ∃ p ∈ ps, s = jsTrim p ∧ maxLen < p.length

/-- Shape of the accumulation buffer during the paragraph loop. -/
def BufOk (maxLen : Nat) (ps : List Str) (cur : Str) : Prop :=
  cur = [] ∨ cur.length ≤ maxLen + 2 ∨
    ∃ p ∈ ps, cur = p ∨ cur = '\n' :: '\n' :: p

theorem chunkOk_of_buf {maxLen : Nat} {ps : List Str} {cur : Str}
    (h : BufOk maxLen ps cur) : ChunkOk maxLen ps (jsTrim cur) := by
  rcases h with rfl | h | ⟨p, hp, hcur⟩
  · left
    rw [jsTrim_nil]
    simp
  · left
    exact le_trans (jsTrim_length_le cur) (by omega)
  · have hnn : jsTrim ('\n' :: '\n' :: p) = jsTrim p :=
      jsTrim_ws_append (w := ['\n', '\n']) (by decide)
    by_cases hlen : p.length ≤ maxLen
    · left
      rcases hcur with hcur | hcur
      · rw [hcur]
        exact le_trans (jsTrim_length_le p) (by omega)
      · rw [hcur, hnn]
        exact le_trans (jsTrim_length_le p) (by omega)
    · right
      have hs : jsTrim cur = jsTrim p := by
        rcases hcur with hcur | hcur
        · rw [hcur]
        · rw [hcur, hnn]
      exact ⟨p, hp, hs, by omega⟩

theorem paraStep_inv {maxLen : Nat} {ps : List Str} {chunks : List Str}
    {cur : Str} (h1 : ∀ s ∈ chunks, ChunkOk maxLen ps s)
    (h2 : BufOk maxLen ps cur) {p : Str} (hp : p ∈ ps) :
    (∀ s ∈ (paraStep maxLen (chunks, cur) p).1, ChunkOk maxLen ps s) ∧
      BufOk maxLen ps (paraStep maxLen (chunks, cur) p).2 := by
  unfold paraStep
  by_cases hc : maxLen < (cur ++ p).length ∧ cur ≠ []
  · rw [if_pos hc]
    constructor
    · intro s hs
      rcases List.mem_append.1 hs with hs | hs
      · exact h1 s hs
      · rw [List.mem_singleton] at hs
        subst hs
        exact chunkOk_of_buf h2
    · exact Or.inr (Or.inr ⟨p, hp, Or.inl rfl⟩)
  · rw [if_neg hc]
    refine ⟨h1, ?_⟩
    rcases not_and_or.1 hc with hc | hc
    · push_neg at hc
      right; left
      show (cur ++ ('\n' :: '\n' :: p)).length ≤ maxLen + 2
      have hlen : (cur ++ ('\n' :: '\n' :: p)).length = (cur ++ p).length + 2 := by
        simp [List.length_append]
        omega
      omega
    · push_neg at hc
      subst hc
      exact Or.inr (Or.inr ⟨p, hp, Or.inr rfl⟩)

theorem foldl_paraStep_inv {maxLen : Nat} {ps : List Str} :
    ∀ (l : List Str) (st : List Str × Str), (∀ x ∈ l, x ∈ ps) →
      (∀ s ∈ st.1, ChunkOk maxLen ps s) → BufOk maxLen ps st.2 →
      (∀ s ∈ (l.foldl (paraStep maxLen) st).1, ChunkOk maxLen ps s) ∧
        BufOk maxLen ps (l.foldl (paraStep maxLen) st).2
  | [], _, _, h1, h2 => ⟨h1, h2⟩
  | x :: t, (chunks, cur), hl, h1, h2 => by
    simp only [List.foldl_cons]
    have hx := paraStep_inv h1 h2 (hl x (List.mem_cons_self x t))
    exact foldl_paraStep_inv t _
      (fun y hy => hl y (List.mem_cons_of_mem x hy)) hx.1 hx.2

theorem splitLongPart_ok {maxLen : Nat} {part : Str} :
    ∀ s ∈ splitLongPart maxLen part, ChunkOk maxLen (splitParas part) s := by
  intro s hs
  unfold splitLongPart at hs
  have hinv := @foldl_paraStep_inv maxLen (splitParas part)
    (splitParas part) ([], []) (fun _ hx => hx)
    (fun s hs => absurd hs (by simp)) (Or.inl rfl)
  rcases List.mem_append.1 hs with hs | hs
  · exact hinv.1 s hs
  · by_cases h50 :
      50 < (jsTrim ((splitParas part).foldl (paraStep maxLen) ([], [])).2).length
    · rw [if_pos h50, List.mem_singleton] at hs
      subst hs
      exact chunkOk_of_buf hinv.2
    · rw [if_neg h50] at hs
      cases hs

theorem partChunks_ok {maxLen : Nat} {part : Str} :
    ∀ s ∈ partChunks maxLen part,
      s.length ≤ maxLen + 2 ∨
        (maxLen < part.length ∧
          ∃ p ∈ splitParas part, s = jsTrim p ∧ maxLen < p.length) := by
  intro s hs
  unfold partChunks at hs
  by_cases hl : part.length ≤ maxLen
  · rw [if_pos hl, List.mem_singleton] at hs
    subst hs
    left
    omega
  · rw [if_neg hl] at hs
    have h : s.length ≤ maxLen + 2 ∨
        ∃ p ∈ splitParas part, s = jsTrim p ∧ maxLen < p.length :=
      splitLongPart_ok s hs
    rcases h with h | h
    · exact Or.inl h
    · exact Or.inr ⟨by omega, h⟩

theorem splitTextAux_ok {maxLen : Nat} :
    ∀ (parts : List Str) (curCh : Option Str) (c : TextChunk),
      c ∈ splitTextAux maxLen curCh parts →
      c.content.length ≤ maxLen + 2 ∨
        ∃ part ∈ parts, maxLen < (jsTrim part).length ∧
          ∃ p ∈ splitParas (jsTrim part),
            c.content = jsTrim p ∧ maxLen < p.length
  | [], _, c, hc => absurd hc (by simp [splitTextAux])
  | rawPart :: rest, curCh, c, hc => by
    unfold splitTextAux at hc
    by_cases h0 : jsTrim rawPart = []
    · rw [if_pos h0] at hc
      rcases splitTextAux_ok rest curCh c hc with h | ⟨part, hmem, hrest⟩
      · exact Or.inl h
      · exact Or.inr ⟨part, List.mem_cons_of_mem _ hmem, hrest⟩
    · rw [if_neg h0] at hc
      by_cases h1 : testChapter (jsTrim rawPart) = true
      · rw [if_pos h1] at hc
        rcases splitTextAux_ok rest (some (jsTrim rawPart)) c hc with
          h | ⟨part, hmem, hrest⟩
        · exact Or.inl h
        · exact Or.inr ⟨part, List.mem_cons_of_mem _ hmem, hrest⟩
      · rw [if_neg h1] at hc
        by_cases h2 : (jsTrim rawPart).length < 50
        · rw [if_pos h2] at hc
          rcases splitTextAux_ok rest curCh c hc with h | ⟨part, hmem, hrest⟩
          · exact Or.inl h
          · exact Or.inr ⟨part, List.mem_cons_of_mem _ hmem, hrest⟩
        · rw [if_neg h2] at hc
          rcases List.mem_append.1 hc with hc | hc
          · obtain ⟨s, hsmem, hceq⟩ := List.mem_map.1 hc
            rcases partChunks_ok s hsmem with hok | ⟨hbig, p, hpmem, hok1, hok2⟩
            · left
              rw [← hceq]
              exact hok
            · right
              exact ⟨rawPart, List.mem_cons_self rawPart rest, hbig, p, hpmem,
                by rw [← hceq]; exact hok1, hok2⟩
          · rcases splitTextAux_ok rest curCh c hc with h | ⟨part, hmem, hrest⟩
            · exact Or.inl h
            · exact Or.inr ⟨part, List.mem_cons_of_mem _ hmem, hrest⟩

/-- C1 (amended): every chunk returned by `splitText` has content length at
most `maxLen + 2` — the two extra characters are the `\n\n` separator that the
accumulation appends after checking the budget against the unseparated
concatenation — except a chunk that is the trim of a single paragraph of the
input: a paragraph `p` with `maxLen < p.length` obtained by blank-line
splitting the trim of an over-long piece `part` of the input's chapter split.
(The original bound `maxLen` fails; see the counterexample.) -/
theorem claim_C1_amended (text : Str) (maxLen : Nat) :
    ∀ c ∈ splitText text maxLen,
      c.content.length ≤ maxLen + 2 ∨
      ∃ part ∈ chapterSplit text, maxLen < (jsTrim part).length ∧
        ∃ p ∈ splitParas (jsTrim part),
          c.content = jsTrim p ∧ maxLen < p.length := by
  intro c hc
  exact splitTextAux_ok (chapterSplit text) none c hc

/-- C1 witness: the amended bound applied to a chunk of a concrete document
split with `maxLen = 20`. -/
theorem claim_C1_amended_witness :
    (⟨str "bbbbbbbbb\n\nccccccccccc", none⟩ : TextChunk) ∈
      splitText (str "aaaaaaaaaaaaaaaaaaa\n\nbbbbbbbbb\n\nccccccccccc\n\nddddddddddddddddddd") 20 ∧
    ((str "bbbbbbbbb\n\nccccccccccc" : Str).length ≤ 20 + 2 ∨
      ∃ part ∈ chapterSplit (str "aaaaaaaaaaaaaaaaaaa\n\nbbbbbbbbb\n\nccccccccccc\n\nddddddddddddddddddd"),
        20 < (jsTrim part).length ∧
        ∃ p ∈ splitParas (jsTrim part),
          (str "bbbbbbbbb\n\nccccccccccc" : Str) = jsTrim p ∧ 20 < p.length) :=
  ⟨by decide,
   claim_C1_amended
     (str "aaaaaaaaaaaaaaaaaaa\n\nbbbbbbbbb\n\nccccccccccc\n\nddddddddddddddddddd")
     20 ⟨str "bbbbbbbbb\n\nccccccccccc", none⟩ (by decide)⟩

/-- C1 counterexample: with `maxLen = 20`, the document
`"a"*19 ++ "\n\n" ++ "b"*9 ++ "\n\n" ++ "c"*11 ++ "\n\n" ++ "d"*19` produces a
chunk `"b"*9 ++ "\n\n" ++ "c"*11` of length 22 > 20 that was built by greedily
accumulating two paragraphs — it is not the trim of any single source
paragraph, so the claim's only allowed exception does not apply.  (The
accumulation checks `(current + p).length > maxLen` but then appends
`'\n\n' + p`, two characters more than what was checked.) -/
theorem claim_C1_counterexample :
    splitText (str "aaaaaaaaaaaaaaaaaaa\n\nbbbbbbbbb\n\nccccccccccc\n\nddddddddddddddddddd") 20 =
      [⟨str "aaaaaaaaaaaaaaaaaaa", none⟩, ⟨str "bbbbbbbbb\n\nccccccccccc", none⟩] ∧
    20 < (str "bbbbbbbbb\n\nccccccccccc" : Str).length ∧
    ¬ ∃ p ∈ splitParas (str "aaaaaaaaaaaaaaaaaaa\n\nbbbbbbbbb\n\nccccccccccc\n\nddddddddddddddddddd"),
        jsTrim p = str "bbbbbbbbb\n\nccccccccccc" := by
  decide

/-- C6 (amended): whole non-heading segments trimming to fewer than 50
characters are dropped (they contribute no chunk, only a possible chapter
update), and the final paragraph-accumulation buffer is emitted exactly when
its trimmed length exceeds 50.  The original claim's third conjunct is false:
chunks flushed mid-way through paragraph accumulation carry no 50-character
minimum (see the counterexample). -/
theorem claim_C6_amended :
    (∀ (maxLen : Nat) (curCh : Option Str) (rawPart : Str) (rest : List Str),
      (jsTrim rawPart).length < 50 → testChapter (jsTrim rawPart) = false →
      splitTextAux maxLen curCh (rawPart :: rest) =
        splitTextAux maxLen curCh rest) ∧
    (∀ (maxLen : Nat) (curCh : Option Str) (rawPart : Str) (rest : List Str),
      testChapter (jsTrim rawPart) = true →
      splitTextAux maxLen curCh (rawPart :: rest) =
        splitTextAux maxLen (some (jsTrim rawPart)) rest) ∧
    (∀ (maxLen : Nat) (part : Str),
      (jsTrim ((splitParas part).foldl (paraStep maxLen) ([], [])).2).length ≤ 50 →
      splitLongPart maxLen part =
        ((splitParas part).foldl (paraStep maxLen) ([], [])).1) ∧
    (∀ (maxLen : Nat) (part : Str),
      50 < (jsTrim ((splitParas part).foldl (paraStep maxLen) ([], [])).2).length →
      splitLongPart maxLen part =
        ((splitParas part).foldl (paraStep maxLen) ([], [])).1 ++
          [jsTrim ((splitParas part).foldl (paraStep maxLen) ([], [])).2]) := by
  refine ⟨?_, ?_, ?_, ?_⟩
  · intro maxLen curCh rawPart rest h50 hch
    conv_lhs => rw [splitTextAux]
    by_cases h0 : jsTrim rawPart = []
    · simp [h0]
    · simp [h0, hch, h50]
  · intro maxLen curCh rawPart rest hch
    have h0 : ¬ jsTrim rawPart = [] := by
      intro h0
      rw [h0] at hch
      exact absurd hch (by decide)
    conv_lhs => rw [splitTextAux]
    simp [h0, hch]
  · intro maxLen part h50
    unfold splitLongPart
    rw [if_neg (by omega), List.append_nil]
  · intro maxLen part h50
    unfold splitLongPart
    rw [if_pos h50]

/-- C6 witness: the amended theorem applied to the concrete segment `short`
(trimmed length 5 < 50, dropped) and to the concrete over-long-part paragraph
list `ab\n\ncd` whose final buffer trims to 6 ≤ 50 characters (dropped). -/
theorem claim_C6_amended_witness :
    splitTextAux 10 none [str "short"] = splitTextAux 10 none [] ∧
    splitTextAux 10 none [str "第一章 x"] =
      splitTextAux 10 (some (jsTrim (str "第一章 x"))) [] ∧
    splitLongPart 10 (str "ab\n\ncd") =
      ((splitParas (str "ab\n\ncd")).foldl (paraStep 10) ([], [])).1 :=
  ⟨claim_C6_amended.1 10 none (str "short") [] (by decide) (by decide),
   claim_C6_amended.2.1 10 none (str "第一章 x") [] (by decide),
   claim_C6_amended.2.2.1 10 (str "ab\n\ncd") (by decide)⟩

/-- C6 counterexample: with `maxLen = 10`, a 54-character document of seven
6-character paragraphs makes the segmenter emit chunks of stripped length
6 < 50 — the mid-accumulation flush (line 44) performs no 50-character check,
so the claim's assertion that every flushed chunk satisfies the minimum is
false. -/
theorem claim_C6_counterexample :
    splitText (str "aaaaaa\n\nbbbbbb\n\ncccccc\n\ndddddd\n\neeeeee\n\nffffff\n\ngggggg") 10 =
      [⟨str "aaaaaa", none⟩, ⟨str "bbbbbb", none⟩, ⟨str "cccccc", none⟩,
       ⟨str "dddddd", none⟩, ⟨str "eeeeee", none⟩, ⟨str "ffffff", none⟩] ∧
    (⟨str "aaaaaa", none⟩ : TextChunk) ∈
      splitText (str "aaaaaa\n\nbbbbbb\n\ncccccc\n\ndddddd\n\neeeeee\n\nffffff\n\ngggggg") 10 ∧
    (jsTrim (str "aaaaaa")).length < 50 := by
  decide

/- ### `getMatchedKnowledge` (AI helper module lines 18-62) -/

/-- The fixed punctuation class replaced by spaces in the query tokenizer,
`[，。？！、""''：；（）【】]` — in the source file the four quote characters are
the ASCII double and single quotes. -/
def isQueryPunct (c : Char) : Bool :=
  c = '，' || c = '。' || c = '？' || c = '！' || c = '、' || c = '"' ||
  c = '\'' || c = '：' || c = '；' || c = '（' || c = '）' || c = '【' || c = '】'

/-- `.split(/\s+/)` with JavaScript semantics: separators at the edges yield
empty pieces and `''.split` yields `['']`. -/
def splitWsAux : Nat → Str → Str → List Str
  | 0, cur, l => [cur.reverse ++ l]
  | _ + 1, cur, [] => [cur.reverse]
  | fuel + 1, cur, c :: rest =>
    if jsWs c then cur.reverse :: splitWsAux fuel [] (rest.dropWhile jsWs)
    else splitWsAux fuel (c :: cur) rest

/-- `.split(/\s+/)`. -/
def splitWs (l : Str) : List Str := splitWsAux l.length [] l

/-- Lines 24-27: lowercase the query, replace the punctuation class by spaces,
split on whitespace runs, keep only tokens of length at least 2. -/
def queryWords (text : Str) : List Str :=
  (splitWs ((jsLower text).map (fun c => if isQueryPunct c then ' ' else c))).filter
    (fun w => decide (2 ≤ w.length))

/-- Lines 47-50: the entry's detail values joined by single spaces (the result
of `Object.values(...).join(' ')`), lowercased. -/
def detailsText (k : KnowledgeEntry) : Str :=
  jsLower (List.intercalate (str " ") (k.details.map (fun kv => kv.2)))

/-- The filter predicate of `getMatchedKnowledge` (lines 29-61): title
containment, else keyword containment, else a co-occurrence count of at least
two query tokens. -/
def matchesEntry (text : Str) (k : KnowledgeEntry) : Bool :=
  (decide (k.title ≠ []) && jsIncludes (jsLower text) (jsLower k.title)) ||
  (k.keywords.any (fun kw =>
    decide (jsLower (jsTrim kw) ≠ []) &&
      jsIncludes (jsLower text) (jsLower (jsTrim kw)))) ||
  decide (2 ≤ ((queryWords text).filter (fun w =>
    jsIncludes (jsLower k.title) w ||
    k.keywords.any (fun kw => jsIncludes (jsLower kw) w) ||
    jsIncludes (detailsText k) w)).length)

/-- `getMatchedKnowledge` (line 18): filter the concatenation of the local and
external knowledge lists by the relevance predicate. -/
def getMatchedKnowledge (knowledge externalKnowledge : List KnowledgeEntry)
    (text : Str) : List KnowledgeEntry :=
  (knowledge ++ externalKnowledge).filter (matchesEntry text)

/-- The relevance criterion exactly as the claim words it: identical to
`matchesEntry` except that clause (3) searches the concatenation of the detail
values *without* separator ("the concatenation of the string values of its
details"), where the source joins them with single spaces. -/
def claimRelevant (text : Str) (k : KnowledgeEntry) : Bool :=
  (decide (k.title ≠ []) && jsIncludes (jsLower text) (jsLower k.title)) ||
  (k.keywords.any (fun kw =>
    decide (jsLower (jsTrim kw) ≠ []) &&
      jsIncludes (jsLower text) (jsLower (jsTrim kw)))) ||
  decide (2 ≤ ((queryWords text).filter (fun w =>
    jsIncludes (jsLower k.title) w ||
    k.keywords.any (fun kw => jsIncludes (jsLower kw) w) ||
    jsIncludes (jsLower (k.details.map (fun kv => kv.2)).flatten) w)).length)

/-- C2 (amended): an entry is kept iff it occurs in the concatenated knowledge
lists and (1) its title is non-empty and its lowercased form is a substring of
the lowercased query, or (2) some keyword trims and lowercases to a non-empty
substring of the lowercased query, or (3) at least two of the query's tokens
(lowercased, fixed punctuation replaced by spaces, split on whitespace runs,
tokens shorter than 2 discarded) occur as substrings of the lowercased title,
of some lowercased keyword, or of the *space-separated* concatenation of the
entry's detail values.  (With the claim's literal separator-less concatenation
the equivalence fails; see the counterexample.) -/
theorem claim_C2_amended (knowledge externalKnowledge : List KnowledgeEntry)
    (text : Str) (k : KnowledgeEntry) :
    k ∈ getMatchedKnowledge knowledge externalKnowledge text ↔
      k ∈ knowledge ++ externalKnowledge ∧
      ((k.title ≠ [] ∧ jsIncludes (jsLower text) (jsLower k.title) = true) ∨
       (∃ kw ∈ k.keywords, jsLower (jsTrim kw) ≠ [] ∧
          jsIncludes (jsLower text) (jsLower (jsTrim kw)) = true) ∨
       2 ≤ ((queryWords text).filter (fun w =>
          jsIncludes (jsLower k.title) w ||
          k.keywords.any (fun kw => jsIncludes (jsLower kw) w) ||
          jsIncludes (detailsText k) w)).length) := by
  rw [getMatchedKnowledge, List.mem_filter]
  constructor
  · rintro ⟨hmem, hm⟩
    refine ⟨hmem, ?_⟩
    simp only [matchesEntry, Bool.or_eq_true, Bool.and_eq_true,
      decide_eq_true_eq, List.any_eq_true] at hm
    rcases hm with (⟨h1, h2⟩ | ⟨kw, hkw, h3, h4⟩) | h5
    · exact Or.inl ⟨h1, h2⟩
    · exact Or.inr (Or.inl ⟨kw, hkw, h3, h4⟩)
    · exact Or.inr (Or.inr h5)
  · rintro ⟨hmem, hm⟩
    refine ⟨hmem, ?_⟩
    simp only [matchesEntry, Bool.or_eq_true, Bool.and_eq_true,
      decide_eq_true_eq, List.any_eq_true]
    rcases hm with ⟨h1, h2⟩ | ⟨kw, hkw, h3, h4⟩ | h5
    · exact Or.inl (Or.inl ⟨h1, h2⟩)
    · exact Or.inl (Or.inr ⟨kw, hkw, h3, h4⟩)
    · exact Or.inr h5

/-- C2 counterexample: for an entry with detail values `ab` and `cd` and the
query `bc ab`, the claim's separator-less concatenation `abcd` contains both
tokens `bc` and `ab` (two hits, relevant), but the source's space-joined
details text `ab cd` contains only `ab` (one hit), so `getMatchedKnowledge`
drops the entry while the claim as stated keeps it. -/
theorem claim_C2_counterexample :
    getMatchedKnowledge
      [⟨str "e", .qita, str "zzz", [],
        [(str "a", str "ab"), (str "b", str "cd")]⟩] [] (str "bc ab") = [] ∧
    claimRelevant (str "bc ab")
      ⟨str "e", .qita, str "zzz", [],
        [(str "a", str "ab"), (str "b", str "cd")]⟩ = true := by
  decide

/- ### `sendToAI` prompt assembly (AI helper module lines 88-195) -/

/-- `formatKnowledgeDetails` (lines 91-108): render every present, non-empty,
non-whitespace, category-defined field as a `label：value` line.  (The
defensive fallback for an unknown category is unreachable under the closed
category enumeration.) -/
def formatKnowledgeDetails (cf : Category → List Field) (k : KnowledgeEntry) : Str :=
  List.intercalate (str "\n")
    ((cf k.category).filterMap (fun f =>
      match List.lookup f.key k.details with
      | some value =>
        if value ≠ [] ∧ jsTrim value ≠ []
        then some (f.label ++ str "：" ++ value)
        else none
      | none => none))

/-- One step of the `byCategory` record built by `getAllKnowledgeSummary`
(lines 74-78); JavaScript object keys preserve insertion order. -/
def byCategoryStep (m : List (Category × List Str)) (k : KnowledgeEntry) :
    List (Category × List Str) :=
  if m.any (fun cv => decide (cv.1 = k.category)) then
    m.map (fun cv => if cv.1 = k.category then (cv.1, cv.2 ++ [k.title]) else cv)
  else m ++ [(k.category, [k.title])]

/-- `getAllKnowledgeSummary` (lines 67-86): the always-prepended title index. -/
def getAllKnowledgeSummary (knowledge externalKnowledge : List KnowledgeEntry) : Str :=
  if knowledge ++ externalKnowledge = [] then []
  else
    str "【知识库索引】\n" ++
      ((((knowledge ++ externalKnowledge).foldl byCategoryStep []).map
        (fun cv => catStr cv.1 ++ str ": " ++
          List.intercalate (str "、") cv.2 ++ str "\n")).flatten)

/-- The full-detail block for one entry (line 159). -/
def entryFullText (cf : Category → List Field) (k : KnowledgeEntry) : Str :=
  str "\n【" ++ catStr k.category ++ str "】" ++ k.title ++ str "：\n" ++
    formatKnowledgeDetails cf k ++ str "\n"

/-- The summary line for one entry (lines 170-175): details truncated to 200
characters with an ellipsis, newlines flattened to spaces. -/
def entrySummaryLine (cf : Category → List Field) (k : KnowledgeEntry) : Str :=
  str "• " ++ catStr k.category ++ str " - " ++ k.title ++ str ": " ++
    ((if 200 < (formatKnowledgeDetails cf k).length
      then (formatKnowledgeDetails cf k).take 200 ++ str "..."
      else formatKnowledgeDetails cf k).map
        (fun c => if c = '\n' then ' ' else c)) ++
    str "\n"

/-- One budgeted append (lines 160-163 and 176-179): the block is appended to
the prompt, and its length to `usedChars`, only if the new running total stays
strictly under the budget. -/
def budgetAppend (maxTotalChars : Nat) (st : Str × Nat) (t : Str) : Str × Nat :=
  if st.2 + t.length < maxTotalChars then (st.1 ++ t, st.2 + t.length) else st

/-- The full-detail phase (lines 157-164). -/
def fullPhase (cf : Category → List Field) (maxTotalChars : Nat)
    (st : Str × Nat) (ks : List KnowledgeEntry) : Str × Nat :=
  ks.foldl (fun st k => budgetAppend maxTotalChars st (entryFullText cf k)) st

/-- The summary phase (lines 169-180). -/
def summaryPhase (cf : Category → List Field) (maxTotalChars : Nat)
    (st : Str × Nat) (ks : List KnowledgeEntry) : Str × Nat :=
  ks.foldl (fun st k => budgetAppend maxTotalChars st (entrySummaryLine cf k)) st

/-- One step of the ghost observer of the budgeted folds; the append decision
depends only on the running total and the block's length, mirroring
`budgetAppend` exactly. -/
def budgetStep (maxTotalChars : Nat) (acc : List Str × Nat) (t : Str) :
    List Str × Nat :=
  if acc.2 + t.length < maxTotalChars then (acc.1 ++ [t], acc.2 + t.length)
  else acc

/-- Ghost observer of the budgeted folds: which blocks are appended, and the
final running total. -/
def budgetDecide (maxTotalChars : Nat) (used : Nat) (ts : List Str) :
    List Str × Nat :=
  ts.foldl (budgetStep maxTotalChars) ([], used)

/-- State after the full-detail phase (lines 145-164): the section header is
appended without being counted toward the budget, `usedChars` starts at 0, and
the first 10 matched entries are offered. -/
def sectionAfterFull (cf : Category → List Field)
    (matched : List KnowledgeEntry) : Str × Nat :=
  fullPhase cf 50000 (str "\n\n以下是与问题相关的详细设定资料：\n", 0)
    (matched.take 10)

/-- State after the optional summary phase (lines 166-181): entries 11-30 are
offered only when there are any and the remaining headroom exceeds 2000
characters; the summary header is not counted toward the budget. -/
def sectionAfterSummary (cf : Category → List Field)
    (matched : List KnowledgeEntry) : Str × Nat :=
  if ((matched.drop 10).take 20) ≠ [] ∧ (sectionAfterFull cf matched).2 < 50000 - 2000 then
    summaryPhase cf 50000
      ((sectionAfterFull cf matched).1 ++ str "\n\n【更多相关条目摘要】\n",
        (sectionAfterFull cf matched).2)
      ((matched.drop 10).take 20)
  else sectionAfterFull cf matched

/-- The omitted-count trailer (lines 183-186). -/
def omittedTrailer (n : Nat) : Str :=
  str "\n（注：还有 " ++ natToStr n ++ str " 个相关条目未显示）"

/-- Lines 144-187: the knowledge-detail section appended to the system prompt
when at least one entry matched. -/
def buildMatchedSection (cf : Category → List Field)
    (matched : List KnowledgeEntry) : Str :=
  (sectionAfterSummary cf matched).1 ++
    (if 30 < matched.length then omittedTrailer (matched.length - 30) else [])

/-- The blocks the full-detail phase actually appends. -/
def fullBlocksAppended (cf : Category → List Field)
    (matched : List KnowledgeEntry) : List Str :=
  (budgetDecide 50000 0 ((matched.take 10).map (entryFullText cf))).1

/-- The lines the summary phase would append given the post-full running
total. -/
def summariesAppended (cf : Category → List Field)
    (matched : List KnowledgeEntry) : List Str :=
  (budgetDecide 50000 (sectionAfterFull cf matched).2
    (((matched.drop 10).take 20).map (entrySummaryLine cf))).1

/- ### `sendToAI` (AI helper module lines 117-215) -/

/-- A chat message (`Message` in `types.ts`); only the content participates in
prompt assembly. -/
structure ChatMessage where
  role : Str
  content : Str
deriving DecidableEq

/-- `messages[messages.length - 1]?.content || ''` (line 122). -/
def lastContent (messages : List ChatMessage) : Str :=
  orDefault (messages.getLast?.map (fun m => m.content)) []

/-- `currentContent.replace(/<[^>]*>/g, '')` (line 191): drop each maximal
`<...>` span; a `<` with no later `>` is kept verbatim. -/
def stripTagsAux : Nat → Str → Str
  | 0, l => l
  | _ + 1, [] => []
  | fuel + 1, '<' :: rest =>
    if (rest.takeWhile (fun c => c != '>')).length < rest.length then
      stripTagsAux fuel (rest.drop ((rest.takeWhile (fun c => c != '>')).length + 1))
    else '<' :: rest
  | fuel + 1, c :: rest => c :: stripTagsAux fuel rest

/-- `currentContent.replace(/<[^>]*>/g, '')`. -/
def stripTags (l : Str) : Str := stripTagsAux l.length l

/-- The built-in default system prompt (lines 127-128). -/
def defaultSystemPrompt : Str :=
  str "你是一个专业的小说写作助手。帮助用户进行创作、润色、分析角色、构思情节等。\n回答要简洁实用，直接给出建议或修改后的内容。"

/-- The knowledge-base usage instructions always appended (lines 131-135). -/
def kbInstructions : Str :=
  str "\n\n【重要】你拥有一个知识库，里面存储了小说的人物、设定、剧情等信息。\n当用户问到与小说相关的问题时（如角色关系、见面次数、地点、事件等），请根据知识库中的信息回答。\n如果知识库中没有相关信息，请诚实告知用户\"知识库中未找到相关信息\"。"

/-- Lines 122-195: the assembled system prompt — custom or default base
prompt, knowledge instructions, optional knowledge index, optional matched
detail section, optional stripped and truncated current-document excerpt. -/
def buildSystemPrompt (cf : Category → List Field) (sysPrompt : Option Str)
    (messages : List ChatMessage) (knowledge external : List KnowledgeEntry)
    (currentContent : Option Str) : Str :=
  orDefault sysPrompt defaultSystemPrompt ++ kbInstructions ++
  (if getAllKnowledgeSummary knowledge external ≠ []
   then str "\n\n" ++ getAllKnowledgeSummary knowledge external
   else []) ++
  (if getMatchedKnowledge knowledge external (lastContent messages) ≠ []
   then buildMatchedSection cf
     (getMatchedKnowledge knowledge external (lastContent messages))
   else []) ++
  (match currentContent with
   | some cc =>
     if jsTrim (stripTags cc) ≠ []
     then str "\n\n当前文档内容：\n" ++ (jsTrim (stripTags cc)).take 3000
     else []
   | none => [])

/-- The parsed JSON body of a completion response; `content` models
`data.choices?.[0]?.message?.content`. -/
structure ApiData where
  content : Option Str
deriving DecidableEq

instance instDecEqExcept {α β : Type} [DecidableEq α] [DecidableEq β] :
    DecidableEq (Except α β) := fun x y =>
  match x, y with
  | .error a, .error b =>
    if h : a = b then isTrue (congrArg Except.error h)
    else isFalse (fun hh => h (Except.error.inj hh))
  | .ok a, .ok b =>
    if h : a = b then isTrue (congrArg Except.ok h)
    else isFalse (fun hh => h (Except.ok.inj hh))
  | .error _, .ok _ => isFalse (fun hh => Except.noConfusion hh)
  | .ok _, .error _ => isFalse (fun hh => Except.noConfusion hh)

/-- An HTTP response: `res.ok`, `res.status`, and the result of `res.json()`
(which may itself reject, carrying an error message). -/
structure HttpResponse where
  ok : Bool
  status : Nat
  body : Except Str ApiData
deriving DecidableEq

/-- The outcome of one `fetch`: a rejected promise (network failure) carrying
an error message, or a resolved response. -/
inductive FetchResult where
  | reject (msg : Str)
  | resolve (r : HttpResponse)
deriving DecidableEq

/-- Lines 198-215 of `sendToAI`, after the prompt is built: a rejected fetch
or a rejected `res.json()` propagates; a non-2xx status throws
`` `API错误: ${res.status}` ``; otherwise the reply content — or `无响应` when
the content is absent or empty — is returned. -/
def sendToAICall (res : FetchResult) : Except Str Str :=
  match res with
  | .reject msg => .error msg
  | .resolve r =>
    if r.ok = false then .error (str "API错误: " ++ natToStr r.status)
    else
      match r.body with
      | .error msg => .error msg
      | .ok data => .ok (orDefault data.content (str "无响应"))

/-- `sendToAI` (line 117): assemble the system prompt and perform the
completion call; the pair is the prompt sent and the call outcome. -/
def sendToAI (cf : Category → List Field) (res : FetchResult)
    (sysPrompt : Option Str) (messages : List ChatMessage)
    (knowledge external : List KnowledgeEntry) (currentContent : Option Str) :
    Str × Except Str Str :=
  (buildSystemPrompt cf sysPrompt messages knowledge external currentContent,
   sendToAICall res)

/- ### Lemmas about the prompt-budget assembler -/

theorem budgetStep_fold_acc (max : Nat) :
    ∀ (ts : List Str) (acc : List Str × Nat),
      ts.foldl (budgetStep max) acc =
        (acc.1 ++ (budgetDecide max acc.2 ts).1, (budgetDecide max acc.2 ts).2)
  | [], acc => by simp [budgetDecide]
  | t :: ts, acc => by
    rw [List.foldl_cons]
    unfold budgetDecide
    rw [List.foldl_cons]
    by_cases hc : acc.2 + t.length < max
    · have h1 : budgetStep max acc t = (acc.1 ++ [t], acc.2 + t.length) := by
        unfold budgetStep
        rw [if_pos hc]
      have h2 : budgetStep max ([], acc.2) t = ([t], acc.2 + t.length) := by
        unfold budgetStep
        simp only []
        rw [if_pos hc]
        simp
      rw [h1, h2, budgetStep_fold_acc max ts (acc.1 ++ [t], acc.2 + t.length),
        budgetStep_fold_acc max ts ([t], acc.2 + t.length)]
      simp [budgetDecide, List.append_assoc]
    · have h1 : budgetStep max acc t = acc := by
        unfold budgetStep
        rw [if_neg hc]
      have h2 : budgetStep max ([], acc.2) t = ([], acc.2) := by
        unfold budgetStep
        simp only []
        rw [if_neg hc]
      rw [h1, h2, budgetStep_fold_acc max ts acc]
      simp [budgetDecide]

/-- The budgeted string fold appends exactly the blocks selected by the ghost
observer, and tracks the same running total. -/
theorem phase_glue (max : Nat) :
    ∀ (ts : List Str) (s : Str) (used : Nat),
      ts.foldl (budgetAppend max) (s, used) =
        (s ++ (budgetDecide max used ts).1.flatten, (budgetDecide max used ts).2)
  | [], s, used => by simp [budgetDecide]
  | t :: ts, s, used => by
    rw [List.foldl_cons]
    by_cases hc : used + t.length < max
    · have h1 : budgetAppend max (s, used) t = (s ++ t, used + t.length) := by
        unfold budgetAppend
        simp only []
        rw [if_pos hc]
      have h2 : budgetDecide max used (t :: ts) =
          ([t] ++ (budgetDecide max (used + t.length) ts).1,
            (budgetDecide max (used + t.length) ts).2) := by
        unfold budgetDecide
        rw [List.foldl_cons]
        have h3 : budgetStep max ([], used) t = ([t], used + t.length) := by
          unfold budgetStep
          simp only []
          rw [if_pos hc]
          simp
        rw [h3, budgetStep_fold_acc max ts ([t], used + t.length)]
        simp [budgetDecide]
      rw [h1, h2, phase_glue max ts (s ++ t) (used + t.length)]
      simp [List.append_assoc]
    · have h1 : budgetAppend max (s, used) t = (s, used) := by
        unfold budgetAppend
        simp only []
        rw [if_neg hc]
      have h2 : budgetDecide max used (t :: ts) = budgetDecide max used ts := by
        unfold budgetDecide
        rw [List.foldl_cons]
        have h3 : budgetStep max ([], used) t = ([], used) := by
          unfold budgetStep
          simp only []
          rw [if_neg hc]
        rw [h3]
      rw [h1, h2, phase_glue max ts s used]

theorem budgetDecide_length_le (max : Nat) :
    ∀ (ts : List Str) (used : Nat),
      (budgetDecide max used ts).1.length ≤ ts.length
  | [], _ => by simp [budgetDecide]
  | t :: ts, used => by
    unfold budgetDecide
    rw [List.foldl_cons]
    by_cases hc : used + t.length < max
    · have h3 : budgetStep max ([], used) t = ([t], used + t.length) := by
        unfold budgetStep
        simp only []
        rw [if_pos hc]
        simp
      rw [h3, budgetStep_fold_acc max ts ([t], used + t.length)]
      have := budgetDecide_length_le max ts (used + t.length)
      simp only [List.length_cons, List.singleton_append, List.length_append]
      simp
      omega
    · have h3 : budgetStep max ([], used) t = ([], used) := by
        unfold budgetStep
        simp only []
        rw [if_neg hc]
      rw [h3]
      have := budgetDecide_length_le max ts used
      unfold budgetDecide at this
      exact le_trans this (by simp)

theorem budgetDecide_lt (max : Nat) :
    ∀ (ts : List Str) (used : Nat), used < max →
      (budgetDecide max used ts).2 < max
  | [], _, h => by simpa [budgetDecide] using h
  | t :: ts, used, h => by
    unfold budgetDecide
    rw [List.foldl_cons]
    by_cases hc : used + t.length < max
    · have h3 : budgetStep max ([], used) t = ([t], used + t.length) := by
        unfold budgetStep
        simp only []
        rw [if_pos hc]
        simp
      rw [h3, budgetStep_fold_acc max ts ([t], used + t.length)]
      exact budgetDecide_lt max ts (used + t.length) hc
    · have h3 : budgetStep max ([], used) t = ([], used) := by
        unfold budgetStep
        simp only []
        rw [if_neg hc]
      rw [h3]
      exact budgetDecide_lt max ts used h

/-- The full-detail phase in terms of the ghost observer. -/
theorem sectionAfterFull_glue (cf : Category → List Field)
    (matched : List KnowledgeEntry) :
    sectionAfterFull cf matched =
      (str "\n\n以下是与问题相关的详细设定资料：\n" ++ (fullBlocksAppended cf matched).flatten,
        (budgetDecide 50000 0 ((matched.take 10).map (entryFullText cf))).2) := by
  unfold sectionAfterFull fullPhase fullBlocksAppended
  rw [← List.foldl_map (entryFullText cf) (budgetAppend 50000)]
  exact phase_glue 50000 _ _ _

/-- The summary phase in terms of the ghost observer. -/
theorem summaryPhase_glue (cf : Category → List Field) (st : Str × Nat)
    (ks : List KnowledgeEntry) :
    summaryPhase cf 50000 st ks =
      (st.1 ++ (budgetDecide 50000 st.2 (ks.map (entrySummaryLine cf))).1.flatten,
        (budgetDecide 50000 st.2 (ks.map (entrySummaryLine cf))).2) := by
  unfold summaryPhase
  rw [← List.foldl_map (entrySummaryLine cf) (budgetAppend 50000)]
  obtain ⟨s, used⟩ := st
  exact phase_glue 50000 _ _ _

/-- C3 (amended): at most 10 full-detail blocks and at most 20 summary lines
are rendered, each appended only if the running total stays strictly under
`maxTotalChars = 50000` (so the total of appended blocks always stays under
the budget); the summary section is attempted only when summary candidates
exist and the headroom after the full phase exceeds 2000; the rendered section
depends only on the first 30 matched entries plus the matched count; and
whenever more than 30 entries matched, the trailer reporting
`matched.length - 30` omitted entries is appended regardless of budget
exhaustion.  (The claim's "exactly 10 full-detail blocks for 35 matched
entries" is false — blocks are dropped once the budget is exhausted — see the
counterexample.) -/
theorem claim_C3_amended (cf : Category → List Field)
    (matched : List KnowledgeEntry) :
    (fullBlocksAppended cf matched).length ≤ 10 ∧
    (summariesAppended cf matched).length ≤ 20 ∧
    (sectionAfterSummary cf matched).2 < 50000 ∧
    (¬ (((matched.drop 10).take 20) ≠ [] ∧
        (sectionAfterFull cf matched).2 < 50000 - 2000) →
      sectionAfterSummary cf matched = sectionAfterFull cf matched) ∧
    (∀ m₂ : List KnowledgeEntry, matched.take 30 = m₂.take 30 →
      matched.length = m₂.length →
      buildMatchedSection cf matched = buildMatchedSection cf m₂) ∧
    (30 < matched.length →
      buildMatchedSection cf matched =
        (sectionAfterSummary cf matched).1 ++
          omittedTrailer (matched.length - 30)) ∧
    (sectionAfterFull cf matched).1 =
      str "\n\n以下是与问题相关的详细设定资料：\n" ++
        (fullBlocksAppended cf matched).flatten := by
  have hfull2 : (sectionAfterFull cf matched).2 =
      (budgetDecide 50000 0 ((matched.take 10).map (entryFullText cf))).2 := by
    rw [sectionAfterFull_glue]
  refine ⟨?_, ?_, ?_, ?_, ?_, ?_, ?_⟩
  · calc (fullBlocksAppended cf matched).length
        ≤ ((matched.take 10).map (entryFullText cf)).length :=
          budgetDecide_length_le 50000 _ 0
      _ ≤ 10 := by
          rw [List.length_map]
          exact List.length_take_le 10 matched
  · calc (summariesAppended cf matched).length
        ≤ (((matched.drop 10).take 20).map (entrySummaryLine cf)).length :=
          budgetDecide_length_le 50000 _ _
      _ ≤ 20 := by
          rw [List.length_map]
          exact List.length_take_le 20 (matched.drop 10)
  · have hfull : (sectionAfterFull cf matched).2 < 50000 := by
      rw [hfull2]
      exact budgetDecide_lt 50000 _ 0 (by omega)
    unfold sectionAfterSummary
    by_cases hc : ((matched.drop 10).take 20) ≠ [] ∧
        (sectionAfterFull cf matched).2 < 50000 - 2000
    · rw [if_pos hc, summaryPhase_glue]
      exact budgetDecide_lt 50000 _ _ hfull
    · rw [if_neg hc]
      exact hfull
  · intro hc
    unfold sectionAfterSummary
    rw [if_neg hc]
  · intro m₂ h30 hlen
    have h10 : matched.take 10 = m₂.take 10 := by
      have := congrArg (List.take 10) h30
      rwa [List.take_take, List.take_take] at this
    have h20 : (matched.drop 10).take 20 = (m₂.drop 10).take 20 := by
      have := congrArg (List.drop 10) h30
      rwa [List.drop_take, List.drop_take] at this
    have e1 : sectionAfterFull cf matched = sectionAfterFull cf m₂ := by
      unfold sectionAfterFull
      rw [h10]
    have e2 : sectionAfterSummary cf matched = sectionAfterSummary cf m₂ := by
      unfold sectionAfterSummary
      rw [h20, e1]
    unfold buildMatchedSection
    rw [e2, hlen]
  · intro h30
    unfold buildMatchedSection
    rw [if_pos h30]
  · rw [sectionAfterFull_glue]

/-- Thirty-one matched entries (30 trivial ones and one more) for the C3
witness. -/
def c3w1 : List KnowledgeEntry :=
  (List.range 30).map (fun i => ⟨natToStr i, .qita, str "乙", [], []⟩) ++
    [⟨str "a", .renwu, str "甲", [], []⟩]

/-- Same as `c3w1` but with a different 31st entry: the rendered section must
not change. -/
def c3w2 : List KnowledgeEntry :=
  (List.range 30).map (fun i => ⟨natToStr i, .qita, str "乙", [], []⟩) ++
    [⟨str "b", .sheding, str "丙", [], []⟩]

/-- C3 witness: the amended theorem applied to two concrete 31-entry matched
lists agreeing on their first 30 entries, and the trailer equation at 31
matched entries. -/
theorem claim_C3_amended_witness :
    buildMatchedSection CATEGORY_FIELDS c3w1 =
      buildMatchedSection CATEGORY_FIELDS c3w2 ∧
    buildMatchedSection CATEGORY_FIELDS c3w1 =
      (sectionAfterSummary CATEGORY_FIELDS c3w1).1 ++
        omittedTrailer (c3w1.length - 30) :=
  ⟨(claim_C3_amended CATEGORY_FIELDS c3w1).2.2.2.2.1 c3w2 (by decide) (by decide),
   (claim_C3_amended CATEGORY_FIELDS c3w1).2.2.2.2.2.1 (by decide)⟩

/-- A matched entry whose full-detail block is 5005 characters long (its one
detail value is 4993 `x` characters). -/
def bigEntry : KnowledgeEntry :=
  ⟨str "0", .renwu, str "甲", [], [(str "描述", List.replicate 4993 'x')]⟩

/-- Thirty-five such matched entries, for the C3 counterexample: nine blocks
total 45045 characters, and appending the tenth would reach 50050, no longer
strictly under 50000. -/
def c3big : List KnowledgeEntry := List.replicate 35 bigEntry

theorem dropWhile_replicate_of_neg {p : Char → Bool} {c : Char}
    (hc : p c = false) (n : Nat) :
    (List.replicate n c).dropWhile p = List.replicate n c := by
  cases n with
  | zero => rfl
  | succ n => simp [List.replicate_succ, List.dropWhile_cons, hc]

theorem jsTrim_replicate_x (n : Nat) :
    jsTrim (List.replicate n 'x') = List.replicate n 'x' := by
  unfold jsTrim
  rw [dropWhile_replicate_of_neg (by decide) n, List.reverse_replicate,
    dropWhile_replicate_of_neg (by decide) n, List.reverse_replicate]

theorem intercalate_singleton (sep x : Str) : List.intercalate sep [x] = x := by
  simp [List.intercalate]

theorem fmt_bigEntry :
    formatKnowledgeDetails CATEGORY_FIELDS bigEntry =
      str "描述" ++ str "：" ++ List.replicate 4993 'x' := by
  have h3 : (List.replicate 4993 'x' : Str) ≠ [] := by
    intro h
    have h' := congrArg List.length h
    rw [List.length_replicate] at h'
    exact absurd h' (by decide)
  have h4 : jsTrim (List.replicate 4993 'x') ≠ [] := by
    rw [jsTrim_replicate_x]
    exact h3
  unfold formatKnowledgeDetails
  rw [show CATEGORY_FIELDS bigEntry.category = [⟨str "描述", str "描述"⟩] from rfl,
    List.filterMap_cons]
  have hstep :
      (match List.lookup (Field.mk (str "描述") (str "描述")).key bigEntry.details with
        | some value =>
          if value ≠ [] ∧ jsTrim value ≠ []
          then some ((Field.mk (str "描述") (str "描述")).label ++ str "：" ++ value)
          else none
        | none => none) =
      some (str "描述" ++ str "：" ++ List.replicate 4993 'x') := by
    show (if (List.replicate 4993 'x' : Str) ≠ [] ∧ jsTrim (List.replicate 4993 'x') ≠ []
          then some (str "描述" ++ str "：" ++ List.replicate 4993 'x')
          else none) =
        some (str "描述" ++ str "：" ++ List.replicate 4993 'x')
    rw [if_pos ⟨h3, h4⟩]
  rw [hstep, List.filterMap_nil]
  exact intercalate_singleton _ _

theorem bigBlock_len : (entryFullText CATEGORY_FIELDS bigEntry).length = 5005 := by
  unfold entryFullText
  rw [fmt_bigEntry,
    show catStr bigEntry.category = str "人物" from rfl,
    show bigEntry.title = str "甲" from rfl]
  simp only [List.length_append, List.length_replicate]
  norm_num [show (str "\n【").length = 2 from rfl, show (str "人物").length = 2 from rfl,
    show (str "】").length = 1 from rfl, show (str "甲").length = 1 from rfl,
    show (str "：\n").length = 2 from rfl, show (str "描述").length = 2 from rfl,
    show (str "：").length = 1 from rfl, show (str "\n").length = 1 from rfl]

theorem budgetDecide_cons_pos {max used : Nat} {t : Str} {ts : List Str}
    (h : used + t.length < max) :
    budgetDecide max used (t :: ts) =
      ([t] ++ (budgetDecide max (used + t.length) ts).1,
        (budgetDecide max (used + t.length) ts).2) := by
  unfold budgetDecide
  rw [List.foldl_cons]
  have h3 : budgetStep max ([], used) t = ([t], used + t.length) := by
    unfold budgetStep
    simp only []
    rw [if_pos h]
    simp
  rw [h3, budgetStep_fold_acc max ts ([t], used + t.length)]
  simp [budgetDecide]

theorem budgetDecide_cons_neg {max used : Nat} {t : Str} {ts : List Str}
    (h : ¬ used + t.length < max) :
    budgetDecide max used (t :: ts) = budgetDecide max used ts := by
  unfold budgetDecide
  rw [List.foldl_cons]
  have h3 : budgetStep max ([], used) t = ([], used) := by
    unfold budgetStep
    simp only []
    rw [if_neg h]
  rw [h3]

/-- C3 counterexample: for these 35 matched entries under the default budget,
only 9 full-detail blocks are rendered, not "exactly 10" as claimed — the
tenth block no longer fits strictly under `maxTotalChars`. -/
theorem claim_C3_counterexample :
    c3big.length = 35 ∧
    (fullBlocksAppended CATEGORY_FIELDS c3big).length = 9 ∧
    (fullBlocksAppended CATEGORY_FIELDS c3big).length ≠ 10 := by
  have hmap : (c3big.take 10).map (entryFullText CATEGORY_FIELDS) =
      List.replicate 10 (entryFullText CATEGORY_FIELDS bigEntry) := by
    unfold c3big
    rw [List.take_replicate, List.map_replicate]
    norm_num
  have hcount : (budgetDecide 50000 0
      (List.replicate 10 (entryFullText CATEGORY_FIELDS bigEntry))).1.length = 9 := by
    set b := entryFullText CATEGORY_FIELDS bigEntry with hb
    have hblen : b.length = 5005 := bigBlock_len
    have e : List.replicate 10 b =
        b :: b :: b :: b :: b :: b :: b :: b :: b :: b :: [] := rfl
    rw [e]
    rw [budgetDecide_cons_pos (by rw [hblen]; decide)]
    rw [budgetDecide_cons_pos (by rw [hblen]; decide)]
    rw [budgetDecide_cons_pos (by rw [hblen]; decide)]
    rw [budgetDecide_cons_pos (by rw [hblen]; decide)]
    rw [budgetDecide_cons_pos (by rw [hblen]; decide)]
    rw [budgetDecide_cons_pos (by rw [hblen]; decide)]
    rw [budgetDecide_cons_pos (by rw [hblen]; decide)]
    rw [budgetDecide_cons_pos (by rw [hblen]; decide)]
    rw [budgetDecide_cons_pos (by rw [hblen]; decide)]
    rw [budgetDecide_cons_neg (by rw [hblen]; decide)]
    simp [budgetDecide]
  refine ⟨by unfold c3big; rw [List.length_replicate], ?_, ?_⟩
  · unfold fullBlocksAppended
    rw [hmap, hcount]
  · unfold fullBlocksAppended
    rw [hmap, hcount]
    decide

/-- C10: for every 2xx completion response whose JSON body lacks
`choices[0].message.content`, `sendToAI` resolves successfully with the fixed
placeholder `无响应` rather than raising an error. -/
theorem claim_C10 (cf : Category → List Field) (sysPrompt : Option Str)
    (messages : List ChatMessage) (knowledge external : List KnowledgeEntry)
    (currentContent : Option Str) (r : HttpResponse) (data : ApiData)
    (hok : r.ok = true) (hbody : r.body = .ok data)
    (hcontent : data.content = none) :
    (sendToAI cf (.resolve r) sysPrompt messages knowledge external
      currentContent).2 = .ok (str "无响应") := by
  unfold sendToAI
  simp only []
  unfold sendToAICall
  simp [hok, hbody, hcontent, orDefault]

/-- C10 witness: a concrete 200 response with an empty `choices` array
(`content` absent). -/
theorem claim_C10_witness :
    (sendToAI CATEGORY_FIELDS (.resolve ⟨true, 200, .ok ⟨none⟩⟩) none [] [] []
      none).2 = .ok (str "无响应") :=
  claim_C10 CATEGORY_FIELDS none [] [] [] none ⟨true, 200, .ok ⟨none⟩⟩ ⟨none⟩
    rfl rfl rfl

/- ### `handleAnalyze` (`LongTextImport.tsx` lines 90-147) -/

/-- A transient extracted item (`ExtractedItem`), the shape `JSON.parse`d
results are cast to. -/
structure ExtractedItem where
  category : Category
  title : Str
  keywords : List Str
  content : Str
deriving DecidableEq

/-- `content.match(/\[[\s\S]*\]/)` (line 132): the greedy pattern spans from
the first `[` to the last `]`, provided that `]` comes after the `[`. -/
def matchSquare (s : Str) : Option Str :=
  if (s.takeWhile (fun c => c != '[')).length < s.length ∧
      (s.reverse.takeWhile (fun c => c != ']')).length < s.length ∧
      (s.takeWhile (fun c => c != '[')).length <
        s.length - 1 - (s.reverse.takeWhile (fun c => c != ']')).length then
    some ((s.drop ((s.takeWhile (fun c => c != '[')).length)).take
      (s.length - 1 - (s.reverse.takeWhile (fun c => c != ']')).length + 1 -
        (s.takeWhile (fun c => c != '[')).length))
  else none

/-- The environment of a bulk-extraction run: the outcome of each chunk's
`fetch` + `res.json()` (by chunk index), and the behavior of the `JSON.parse`
builtin on the bracketed substrings (`none` models a parse exception). -/
structure AnalyzeEnv where
  fetchResult : Nat → FetchResult
  jsonParse : Str → Option (List ExtractedItem)

/-- Observable events of the extraction loop: the `setProgress` call, the
request attempt, the `console.error` of a caught failure, the pacing delay. -/
inductive AnalyzeEvent where
  | progress (current total : Nat)
  | request (i : Nat)
  | consoleError (i : Nat)
  | delay (ms : Nat)
deriving DecidableEq

/-- The response-processing part of one chunk's try-block (lines 130-136),
shared by the resolved path: `res.json()`, default the missing content to
`'[]'`, extract the first bracketed array, `JSON.parse` it.  The Bool records
whether the `catch` was entered.  `res.ok` and `res.status` are never read —
the extraction call performs no status check. -/
def runChunkResolved (jsonParse : Str → Option (List ExtractedItem))
    (r : HttpResponse) : List ExtractedItem × Bool :=
  match r.body with
  | .error _ => ([], true)
  | .ok data =>
    match matchSquare (orDefault data.content (str "[]")) with
    | none => ([], false)
    | some m =>
      match jsonParse m with
      | none => ([], true)
      | some items => (items, false)

/-- One chunk's try/catch (lines 107-139): items contributed and whether the
`catch` ran. -/
def runChunk (env : AnalyzeEnv) (i : Nat) : List ExtractedItem × Bool :=
  match env.fetchResult i with
  | .reject _ => ([], true)
  | .resolve r => runChunkResolved env.jsonParse r

/-- The events of iteration `i` (lines 105-142): progress, the request
attempt, the logged failure if the catch ran, the fixed 500 ms pacing delay. -/
def chunkEvents (env : AnalyzeEnv) (total i : Nat) : List AnalyzeEvent :=
  [.progress (i + 1) total, .request i] ++
    (if (runChunk env i).2 then [.consoleError i] else []) ++ [.delay 500]

/-- One iteration of the extraction loop: push the chunk's items, record its
events. -/
def analyzeStep (env : AnalyzeEnv) (total : Nat)
    (acc : List ExtractedItem × List AnalyzeEvent) (i : Nat) :
    List ExtractedItem × List AnalyzeEvent :=
  (acc.1 ++ (runChunk env i).1, acc.2 ++ chunkEvents env total i)

/-- Lines 104-143: the sequential loop over all chunks. -/
def handleAnalyzeLoop (env : AnalyzeEnv) (chunks : List TextChunk) :
    List ExtractedItem × List AnalyzeEvent :=
  (List.range chunks.length).foldl (analyzeStep env chunks.length) ([], [])

/- ### `handleMerge` (`MergeDuplicates.tsx` lines 60-163) -/

/-- The JSON object `JSON.parse`d from a merge reply: the `title`, `keywords`
and `content` properties may each be absent or of the wrong type (`none`). -/
structure ParsedMerge where
  title : Option Str
  keywords : Option (List Str)
  content : Option Str
deriving DecidableEq

/-- The environment of one group merge: the configured API key, the fetch
outcome, the `JSON.parse` builtin (`none` models a throw, whose message is
`parseErrMsg`), and the id the store assigns to the new entry. -/
structure MergeEnv where
  apiKey : Str
  fetchResult : FetchResult
  jsonParse : Str → Option ParsedMerge
  parseErrMsg : Str
  newId : Str

/-- Observable events of a merge run. -/
inductive MergeEvent where
  | setError (msg : Str)
  | request
  | addKnowledge (e : KnowledgeEntry)
  | deleteKnowledge (id : Str)
  | setMergeResult (msg : Str)
deriving DecidableEq

/-- The `\x7b` character. -/
def lbrace : Char := Char.ofNat 123

/-- The `\x7d` character. -/
def rbrace : Char := Char.ofNat 125

/-- `rawContent.match(/\x7b[\s\S]*\x7d/)` (line 125): from the first opening
to the last closing brace. -/
def matchCurly (s : Str) : Option Str :=
  if (s.takeWhile (fun c => c != lbrace)).length < s.length ∧
      (s.reverse.takeWhile (fun c => c != rbrace)).length < s.length ∧
      (s.takeWhile (fun c => c != lbrace)).length <
        s.length - 1 - (s.reverse.takeWhile (fun c => c != rbrace)).length then
    some ((s.drop ((s.takeWhile (fun c => c != lbrace)).length)).take
      (s.length - 1 - (s.reverse.takeWhile (fun c => c != rbrace)).length + 1 -
        (s.takeWhile (fun c => c != lbrace)).length))
  else none

/-- Modelled from the spec: `createEmptyDetails` lives in `types.ts`, which is
not among the provided sources — "category-appropriate empty-details template"
(§4.6) with "absent key = empty" (§3): every defined field key mapped to the
empty string. -/
def createEmptyDetails (cf : Category → List Field) (c : Category) :
    List (Str × Str) :=
  (cf c).map (fun f => (f.key, []))

/-- Lines 130-134: place the merged content into the first defined field key
of the category's empty-details template. -/
def mergedDetailsOf (cf : Category → List Field) (c : Category)
    (content : Str) : List (Str × Str) :=
  match createEmptyDetails cf c with
  | [] => []
  | (k0, _) :: rest => (k0, content) :: rest

/-- Lines 137-142: the new knowledge entry created on a successful merge. -/
def mergedEntry (cf : Category → List Field) (env : MergeEnv)
    (g : DuplicateGroup) (parsed : ParsedMerge) : KnowledgeEntry :=
  ⟨env.newId, g.category,
   orDefault parsed.title (g.baseName ++ str "（合并）"),
   (match parsed.keywords with | some l => l | none => []),
   mergedDetailsOf cf g.category (orDefault parsed.content [])⟩

/-- The success banner (line 151); an absent title interpolates as
`undefined`. -/
def mergeResultMsg (g : DuplicateGroup) (parsed : ParsedMerge) : Str :=
  str "✅ 已成功合并 " ++ natToStr g.entries.length ++ str " 个条目为 \"" ++
    (match parsed.title with | some t => t | none => str "undefined") ++
    str "\""

/-- `handleMerge` (lines 60-163): returns the emitted events and the final
knowledge store.  Config check before any network attempt; non-2xx throws and
is caught; missing JSON object is a user-facing format error; a `JSON.parse`
throw is caught; on success the merged entry is added and the originals are
deleted only when opted in. -/
def handleMergeRun (cf : Category → List Field) (env : MergeEnv)
    (deleteOriginals : Bool) (g : DuplicateGroup)
    (store : List KnowledgeEntry) : List MergeEvent × List KnowledgeEntry :=
  if env.apiKey = [] then
    ([.setError (str "请先在 AI设置 中配置 API Key")], store)
  else
    match env.fetchResult with
    | .reject msg => ([.request, .setError (str "合并失败: " ++ msg)], store)
    | .resolve r =>
      if r.ok = false then
        ([.request,
          .setError (str "合并失败: " ++ (str "API 错误: " ++ natToStr r.status))],
         store)
      else
        match r.body with
        | .error msg => ([.request, .setError (str "合并失败: " ++ msg)], store)
        | .ok data =>
          match matchCurly (orDefault data.content []) with
          | none => ([.request, .setError (str "AI 返回格式错误，请重试")], store)
          | some jm =>
            match env.jsonParse jm with
            | none =>
              ([.request, .setError (str "合并失败: " ++ env.parseErrMsg)], store)
            | some parsed =>
              ([.request, .addKnowledge (mergedEntry cf env g parsed)] ++
                (if deleteOriginals then
                  g.entries.map (fun e => .deleteKnowledge e.id)
                 else []) ++
                [.setMergeResult (mergeResultMsg g parsed)],
               if deleteOriginals then
                 g.entries.foldl
                   (fun s e => s.filter (fun x => decide (x.id ≠ e.id)))
                   (store ++ [mergedEntry cf env g parsed])
               else store ++ [mergedEntry cf env g parsed])

/- ### Lemmas about the extraction loop and the merge runner -/

theorem analyzeStep_fold_acc (env : AnalyzeEnv) (total : Nat) :
    ∀ (l : List Nat) (acc : List ExtractedItem × List AnalyzeEvent),
      l.foldl (analyzeStep env total) acc =
        (acc.1 ++ (l.map (fun i => (runChunk env i).1)).flatten,
          acc.2 ++ (l.map (chunkEvents env total)).flatten)
  | [], acc => by simp
  | i :: l, acc => by
    rw [List.foldl_cons, analyzeStep_fold_acc env total l _]
    unfold analyzeStep
    simp [List.append_assoc]

/-- C7: the extraction loop visits every chunk in order regardless of earlier
outcomes — the items are the concatenation of the per-chunk contributions and
the event trace is the concatenation of the per-chunk event groups; a rejected
request or a `JSON.parse` throw contributes zero items for that chunk (so the
other chunks' contributions are unaffected); and every chunk's event group
ends with the fixed 500 ms pacing delay, after the attempt and the possible
logged failure. -/
theorem claim_C7 (env : AnalyzeEnv) (chunks : List TextChunk) :
    (handleAnalyzeLoop env chunks).1 =
      ((List.range chunks.length).map (fun i => (runChunk env i).1)).flatten ∧
    (handleAnalyzeLoop env chunks).2 =
      ((List.range chunks.length).map (chunkEvents env chunks.length)).flatten ∧
    (∀ i msg, env.fetchResult i = .reject msg → (runChunk env i).1 = []) ∧
    (∀ i r data m, env.fetchResult i = .resolve r → r.body = .ok data →
      matchSquare (orDefault data.content (str "[]")) = some m →
      env.jsonParse m = none → (runChunk env i).1 = []) ∧
    (∀ i, chunkEvents env chunks.length i =
      [.progress (i + 1) chunks.length, .request i] ++
        (if (runChunk env i).2 then [.consoleError i] else []) ++ [.delay 500]) := by
  refine ⟨?_, ?_, ?_, ?_, fun i => rfl⟩
  · unfold handleAnalyzeLoop
    rw [analyzeStep_fold_acc]
    simp
  · unfold handleAnalyzeLoop
    rw [analyzeStep_fold_acc]
    simp
  · intro i msg h
    unfold runChunk
    rw [h]
  · intro i r data m h1 h2 h3 h4
    simp [runChunk, runChunkResolved, h1, h2, h3, h4]

/-- Environment for the C7 witness: the first chunk's request rejects, the
second resolves with a parseable array of one item. -/
def c7env : AnalyzeEnv :=
  ⟨fun i => if i = 0 then .reject (str "net")
    else .resolve ⟨true, 200, .ok ⟨some (str "[1]")⟩⟩,
   fun s => if s = str "[1]" then some [⟨.renwu, str "甲", [], str "丙"⟩] else none⟩

/-- C7 witness: with the first of two chunks failing, the run still visits
both chunks, contributes zero items for the failed one and keeps the second
chunk's item. -/
theorem claim_C7_witness :
    (runChunk c7env 0).1 = [] ∧
    (handleAnalyzeLoop c7env [⟨str "x", none⟩, ⟨str "y", none⟩]).1 =
      ((List.range 2).map (fun i => (runChunk c7env i).1)).flatten ∧
    (handleAnalyzeLoop c7env [⟨str "x", none⟩, ⟨str "y", none⟩]).1 =
      [⟨.renwu, str "甲", [], str "丙"⟩] := by
  have h := claim_C7 c7env [⟨str "x", none⟩, ⟨str "y", none⟩]
  refine ⟨h.2.2.1 0 (str "net") rfl, h.1, ?_⟩
  rw [h.1]
  decide

/-- Complete case analysis of a merge run: it either stops before the request
with one error event, stops after the request with one error event, or
succeeds — adding the merged entry, deleting the originals only under the
opt-in, and reporting success. -/
theorem handleMergeRun_cases (cf : Category → List Field) (env : MergeEnv)
    (delOrig : Bool) (g : DuplicateGroup) (store : List KnowledgeEntry) :
    (∃ msg, handleMergeRun cf env delOrig g store = ([.setError msg], store)) ∨
    (∃ msg, handleMergeRun cf env delOrig g store =
      ([.request, .setError msg], store)) ∨
    (∃ parsed, handleMergeRun cf env delOrig g store =
      (([.request, .addKnowledge (mergedEntry cf env g parsed)] ++
        (if delOrig = true then
          g.entries.map (fun e => MergeEvent.deleteKnowledge e.id)
         else [])) ++
        [.setMergeResult (mergeResultMsg g parsed)],
       if delOrig = true then
         g.entries.foldl
           (fun s e => s.filter (fun x => decide (x.id ≠ e.id)))
           (store ++ [mergedEntry cf env g parsed])
       else store ++ [mergedEntry cf env g parsed])) := by
  unfold handleMergeRun
  by_cases hk : env.apiKey = []
  · rw [if_pos hk]
    exact Or.inl ⟨_, rfl⟩
  · rw [if_neg hk]
    rcases env.fetchResult with msg | r
    · exact Or.inr (Or.inl ⟨_, rfl⟩)
    · simp only []
      by_cases hok : r.ok = false
      · rw [if_pos hok]
        exact Or.inr (Or.inl ⟨_, rfl⟩)
      · rw [if_neg hok]
        rcases r.body with msg | data
        · exact Or.inr (Or.inl ⟨_, rfl⟩)
        · simp only []
          rcases matchCurly (orDefault data.content []) with _ | jm
          · exact Or.inr (Or.inl ⟨_, rfl⟩)
          · simp only []
            rcases env.jsonParse jm with _ | parsed
            · exact Or.inr (Or.inl ⟨_, rfl⟩)
            · exact Or.inr (Or.inr ⟨parsed, rfl⟩)

/-- C8: the group merge reports a configuration error and performs no network
request when no API key is configured; a reply with no braced JSON object, or
one whose braced substring fails to parse, produces a user-facing error, no
exception, no added entry and no deletion; delete events occur only on a
successful parse with delete-originals opted in; and without the opt-in the
store is never shrunk — it is either unchanged or extended by the one merged
entry. -/
theorem claim_C8 (cf : Category → List Field) (env : MergeEnv)
    (delOrig : Bool) (g : DuplicateGroup) (store : List KnowledgeEntry) :
    (env.apiKey = [] →
      handleMergeRun cf env delOrig g store =
        ([.setError (str "请先在 AI设置 中配置 API Key")], store)) ∧
    (∀ r data, env.apiKey ≠ [] → env.fetchResult = .resolve r → r.ok = true →
      r.body = .ok data → matchCurly (orDefault data.content []) = none →
      handleMergeRun cf env delOrig g store =
        ([.request, .setError (str "AI 返回格式错误，请重试")], store)) ∧
    (∀ r data jm, env.apiKey ≠ [] → env.fetchResult = .resolve r →
      r.ok = true → r.body = .ok data →
      matchCurly (orDefault data.content []) = some jm →
      env.jsonParse jm = none →
      handleMergeRun cf env delOrig g store =
        ([.request, .setError (str "合并失败: " ++ env.parseErrMsg)], store)) ∧
    (∀ idv, MergeEvent.deleteKnowledge idv ∈
        (handleMergeRun cf env delOrig g store).1 →
      delOrig = true ∧ ∃ e, MergeEvent.addKnowledge e ∈
        (handleMergeRun cf env delOrig g store).1) ∧
    (delOrig = false →
      (handleMergeRun cf env delOrig g store).2 = store ∨
      ∃ ne, (handleMergeRun cf env delOrig g store).2 = store ++ [ne]) := by
  refine ⟨?_, ?_, ?_, ?_, ?_⟩
  · intro h
    unfold handleMergeRun
    rw [if_pos h]
  · intro r data hk h1 h2 h3 h4
    unfold handleMergeRun
    rw [if_neg hk, h1]
    simp [h2, h3, h4]
  · intro r data jm hk h1 h2 h3 h4 h5
    unfold handleMergeRun
    rw [if_neg hk, h1]
    simp [h2, h3, h4, h5]
  · intro idv hidv
    rcases handleMergeRun_cases cf env delOrig g store with
      ⟨msg, he⟩ | ⟨msg, he⟩ | ⟨parsed, he⟩
    · rw [he] at hidv
      simp at hidv
    · rw [he] at hidv
      simp at hidv
    · rw [he] at hidv ⊢
      cases delOrig with
      | false => simp at hidv
      | true =>
        refine ⟨rfl, ⟨mergedEntry cf env g parsed, ?_⟩⟩
        simp
  · intro hdo
    rcases handleMergeRun_cases cf env delOrig g store with
      ⟨msg, he⟩ | ⟨msg, he⟩ | ⟨parsed, he⟩
    · rw [he]
      exact Or.inl rfl
    · rw [he]
      exact Or.inl rfl
    · rw [he]
      subst hdo
      right
      exact ⟨mergedEntry cf env g parsed, by simp⟩

/-- C8 witness: the configuration-error, format-error and parse-failure paths
at concrete environments, and the no-deletion guarantee on a concrete
successful merge without the delete-originals opt-in. -/
theorem claim_C8_witness :
    handleMergeRun CATEGORY_FIELDS
        ⟨[], .reject (str "x"), fun _ => none, str "p", str "id"⟩ false
        ⟨str "甲", .renwu, []⟩ [] =
      ([.setError (str "请先在 AI设置 中配置 API Key")], []) ∧
    handleMergeRun CATEGORY_FIELDS
        ⟨str "k", .resolve ⟨true, 200, .ok ⟨some (str "no json")⟩⟩,
          fun _ => none, str "p", str "id"⟩ false ⟨str "甲", .renwu, []⟩ [] =
      ([.request, .setError (str "AI 返回格式错误，请重试")], []) ∧
    handleMergeRun CATEGORY_FIELDS
        ⟨str "k", .resolve ⟨true, 200, .ok ⟨some (str "\x7ba\x7d")⟩⟩,
          fun _ => none, str "p", str "id"⟩ false ⟨str "甲", .renwu, []⟩ [] =
      ([.request, .setError (str "合并失败: " ++ str "p")], []) ∧
    ((handleMergeRun CATEGORY_FIELDS
        ⟨str "k", .resolve ⟨true, 200, .ok ⟨some (str "\x7ba\x7d")⟩⟩,
          fun _ => some ⟨some (str "乙"), some [], some (str "丙")⟩, str "p",
          str "id"⟩ false ⟨str "甲", .renwu, []⟩ []).2 = [] ∨
      ∃ ne, (handleMergeRun CATEGORY_FIELDS
        ⟨str "k", .resolve ⟨true, 200, .ok ⟨some (str "\x7ba\x7d")⟩⟩,
          fun _ => some ⟨some (str "乙"), some [], some (str "丙")⟩, str "p",
          str "id"⟩ false ⟨str "甲", .renwu, []⟩ []).2 = [] ++ [ne]) := by
  refine ⟨?_, ?_, ?_, ?_⟩
  · exact (claim_C8 CATEGORY_FIELDS _ false _ []).1 rfl
  · exact (claim_C8 CATEGORY_FIELDS _ false _ []).2.1 _ ⟨some (str "no json")⟩
      (by decide) rfl rfl rfl (by decide)
  · exact (claim_C8 CATEGORY_FIELDS _ false _ []).2.2.1 _ ⟨some (str "\x7ba\x7d")⟩
      (str "\x7ba\x7d") (by decide) rfl rfl rfl (by decide) rfl
  · exact (claim_C8 CATEGORY_FIELDS _ false _ []).2.2.2.2 rfl

/-- C9 (amended): the chat call surfaces a non-2xx status as an error carrying
the status and propagates network and body-parse failures; the group-merge
call surfaces a non-2xx status as a user-facing error carrying the status and
surfaces a network failure or a body-parse (`res.json()`) failure as a
user-facing `合并失败:` error; but the per-chunk extraction call performs no
status check at all — its behavior depends only on the response body, a
non-2xx response being handled exactly like a 2xx one (no status-carrying
error is ever surfaced there; failures are swallowed only at the per-chunk
granularity). -/
theorem claim_C9_amended :
    (∀ msg : Str, sendToAICall (.reject msg) = .error msg) ∧
    (∀ r : HttpResponse, r.ok = false →
      sendToAICall (.resolve r) = .error (str "API错误: " ++ natToStr r.status)) ∧
    (∀ (r : HttpResponse) (msg : Str), r.ok = true → r.body = .error msg →
      sendToAICall (.resolve r) = .error msg) ∧
    (∀ (cf : Category → List Field) (env : MergeEnv) (delOrig : Bool)
        (g : DuplicateGroup) (store : List KnowledgeEntry) (r : HttpResponse),
      env.apiKey ≠ [] → env.fetchResult = .resolve r → r.ok = false →
      handleMergeRun cf env delOrig g store =
        ([.request,
          .setError (str "合并失败: " ++ (str "API 错误: " ++ natToStr r.status))],
         store)) ∧
    (∀ (cf : Category → List Field) (env : MergeEnv) (delOrig : Bool)
        (g : DuplicateGroup) (store : List KnowledgeEntry) (msg : Str),
      env.apiKey ≠ [] → env.fetchResult = .reject msg →
      handleMergeRun cf env delOrig g store =
        ([.request, .setError (str "合并失败: " ++ msg)], store)) ∧
    (∀ (cf : Category → List Field) (env : MergeEnv) (delOrig : Bool)
        (g : DuplicateGroup) (store : List KnowledgeEntry) (r : HttpResponse)
        (msg : Str),
      env.apiKey ≠ [] → env.fetchResult = .resolve r → r.ok = true →
      r.body = .error msg →
      handleMergeRun cf env delOrig g store =
        ([.request, .setError (str "合并失败: " ++ msg)], store)) ∧
    (∀ (p : Str → Option (List ExtractedItem)) (r r' : HttpResponse),
      r.body = r'.body → runChunkResolved p r = runChunkResolved p r') := by
  refine ⟨fun msg => rfl, ?_, ?_, ?_, ?_, ?_, ?_⟩
  · intro r h
    simp [sendToAICall, h]
  · intro r msg h1 h2
    simp [sendToAICall, h1, h2]
  · intro cf env delOrig g store r hk h1 h2
    unfold handleMergeRun
    rw [if_neg hk, h1]
    simp [h2]
  · intro cf env delOrig g store msg hk h1
    unfold handleMergeRun
    rw [if_neg hk, h1]
  · intro cf env delOrig g store r msg hk h1 h2 h3
    unfold handleMergeRun
    rw [if_neg hk, h1]
    simp [h2, h3]
  · intro p r r' h
    unfold runChunkResolved
    rw [h]

/-- C9 witness: the amended behaviors at concrete responses — a rejected chat
call, a 404 chat call, a 500 merge call, a rejected merge call, a merge call
whose body fails to parse, and the status-independence of the extraction path
between a 500 and a 200 response. -/
theorem claim_C9_amended_witness :
    sendToAICall (.reject (str "网络错误")) = .error (str "网络错误") ∧
    sendToAICall (.resolve ⟨false, 404, .ok ⟨none⟩⟩) =
      .error (str "API错误: " ++ natToStr 404) ∧
    handleMergeRun CATEGORY_FIELDS
        ⟨str "k", .resolve ⟨false, 500, .ok ⟨none⟩⟩, fun _ => none, str "p",
          str "id"⟩ false ⟨str "甲", .renwu, []⟩ [] =
      ([.request,
        .setError (str "合并失败: " ++ (str "API 错误: " ++ natToStr 500))], []) ∧
    handleMergeRun CATEGORY_FIELDS
        ⟨str "k", .reject (str "网络断开"), fun _ => none, str "p",
          str "id"⟩ false ⟨str "甲", .renwu, []⟩ [] =
      ([.request, .setError (str "合并失败: " ++ str "网络断开")], []) ∧
    handleMergeRun CATEGORY_FIELDS
        ⟨str "k", .resolve ⟨true, 200, .error (str "bad json")⟩, fun _ => none,
          str "p", str "id"⟩ false ⟨str "甲", .renwu, []⟩ [] =
      ([.request, .setError (str "合并失败: " ++ str "bad json")], []) ∧
    runChunkResolved (fun _ => none) ⟨false, 500, .ok ⟨none⟩⟩ =
      runChunkResolved (fun _ => none) ⟨true, 200, .ok ⟨none⟩⟩ :=
  ⟨claim_C9_amended.1 (str "网络错误"),
   claim_C9_amended.2.1 ⟨false, 404, .ok ⟨none⟩⟩ rfl,
   claim_C9_amended.2.2.2.1 CATEGORY_FIELDS
     ⟨str "k", .resolve ⟨false, 500, .ok ⟨none⟩⟩, fun _ => none, str "p",
       str "id"⟩ false ⟨str "甲", .renwu, []⟩ [] ⟨false, 500, .ok ⟨none⟩⟩
     (by decide) rfl rfl,
   claim_C9_amended.2.2.2.2.1 CATEGORY_FIELDS
     ⟨str "k", .reject (str "网络断开"), fun _ => none, str "p",
       str "id"⟩ false ⟨str "甲", .renwu, []⟩ [] (str "网络断开")
     (by decide) rfl,
   claim_C9_amended.2.2.2.2.2.1 CATEGORY_FIELDS
     ⟨str "k", .resolve ⟨true, 200, .error (str "bad json")⟩, fun _ => none,
       str "p", str "id"⟩ false ⟨str "甲", .renwu, []⟩ []
     ⟨true, 200, .error (str "bad json")⟩ (str "bad json")
     (by decide) rfl rfl rfl,
   claim_C9_amended.2.2.2.2.2.2 (fun _ => none) ⟨false, 500, .ok ⟨none⟩⟩
     ⟨true, 200, .ok ⟨none⟩⟩ rfl⟩

/-- Per-chunk extraction environment answering every request with an HTTP 500
whose JSON error body has no `choices`; `JSON.parse` behaves normally on
`[]`. -/
def env500 : AnalyzeEnv :=
  ⟨fun _ => .resolve ⟨false, 500, .ok ⟨none⟩⟩,
   fun s => if s = str "[]" then some [] else none⟩

/-- The same environment with a 200 status. -/
def env200 : AnalyzeEnv :=
  ⟨fun _ => .resolve ⟨true, 200, .ok ⟨none⟩⟩,
   fun s => if s = str "[]" then some [] else none⟩

/-- C9 counterexample: a non-2xx extraction response surfaces no error at all
— the run completes with zero items, no logged failure, and an output
identical to the 200 case; no error carrying the HTTP status code exists
anywhere in the observable behavior, contradicting the claim for the
per-chunk extraction call site. -/
theorem claim_C9_counterexample :
    handleAnalyzeLoop env500 [⟨str "x", none⟩] =
      ([], [.progress 1 1, .request 0, .delay 500]) ∧
    handleAnalyzeLoop env500 [⟨str "x", none⟩] =
      handleAnalyzeLoop env200 [⟨str "x", none⟩] := by
  decide

end CuteWriting
